import Mathlib

/-!
# hardinfo2/util.c: the module (plugin) subsystem

A shallow embedding of the module loader, the method registry with its call
functions, the dependency resolver, the module directory scan and the unload
of all modules of `hardinfo2/util.c`, and of its helper `seconds_to_string`.

Conventions of the embedding

* C strings are `String`; character-level functions work on `String.toList`.
* A `GSList *` is a `List`; `NULL` is `[]`.  A nullable pointer is an `Option`.
* The GLib functions the file calls are not part of the repository.  They are
  embedded after GLib's documented behaviour (`g_str_has_prefix`, `g_strrstr`,
  `g_hash_table_insert`, `g_hash_table_foreach_remove`, `g_slist_sort`), or
  taken as data of the environment (`g_module_open` and the symbols of a
  dynamic object).
* `g_error` aborts the process: it is the outcome `Outcome.fatal`.
* Global variables (`__module_methods`, `modules_list`) are fields of `World`,
  threaded through every function that touches them.
* `gint` values are `Int`; `module_cmp` reduces its difference into the
  32-bit two's complement range.
-/

namespace Hardinfo

/-! ## GLib helpers -/

/-- The C function `g_str_equal`. -/
def g_str_equal (a b : String) : Bool := a == b

/-- The C function `g_str_has_prefix (str, prefix)`. -/
def g_str_has_prefix (str pre : String) : Bool :=
  pre.toList.isPrefixOf str.toList

/-- The C function `g_strrstr (haystack, needle)`: the offset of the last
occurrence of `needle` in `haystack`, `none` for `NULL`.  An empty needle
yields the haystack itself. -/
def g_strrstr (haystack needle : String) : Option Nat :=
  if needle.toList.isEmpty then some 0
  else ((List.range (haystack.toList.length + 1)).filter
          (fun i => needle.toList.isPrefixOf (haystack.toList.drop i))).getLast?

/-- The function `strend (str, chr)` of util.c: cut `str` at the first `chr`. -/
def strend (str : String) (chr : Char) : String :=
  String.mk (str.toList.takeWhile (fun c => c != chr))

/-- A `GHashTable` keyed by strings (`g_str_hash`, `g_str_equal`), as an
association list without repeated keys.  The values are function pointers,
kept as addresses. -/
abbrev GHashTable := List (String × Nat)

/-- The C function `g_hash_table_lookup`. -/
def g_hash_table_lookup (t : GHashTable) (key : String) : Option Nat :=
  (t.find? (fun p => g_str_equal p.1 key)).map Prod.snd

/-- The C function `g_hash_table_insert`: a key already present keeps its
place and gets the new value. -/
def g_hash_table_insert (t : GHashTable) (key : String) (value : Nat) : GHashTable :=
  if t.any (fun p => g_str_equal p.1 key) then
    t.map (fun p => if g_str_equal p.1 key then (p.1, value) else p)
  else t ++ [(key, value)]

/-- The C function `g_hash_table_foreach_remove`: drop every entry on which
the callback returns TRUE. -/
def g_hash_table_foreach_remove (t : GHashTable)
    (func : String → Nat → String → Bool) (user_data : String) : GHashTable :=
  t.filter (fun p => !(func p.1 p.2 user_data))

/-- Merge step of `g_slist_sort` (GLib `g_slist_sort_merge`): the head of the
first list goes first when `compare` is `<= 0`.  `mergeAux` is the inner loop
for a fixed head of the first list. -/
def g_slist_sort_mergeAux {α : Type} (compare : α → α → Int) (x : α) (xs : List α)
    (rec : List α → List α) : List α → List α
  | [] => x :: xs
  | y :: ys =>
    if compare x y ≤ 0 then x :: rec (y :: ys)
    else y :: g_slist_sort_mergeAux compare x xs rec ys

/-- Merge step of `g_slist_sort` (GLib `g_slist_sort_merge`). -/
def g_slist_sort_merge {α : Type} (compare : α → α → Int) : List α → List α → List α
  | [], l2 => l2
  | x :: xs, l2 => g_slist_sort_mergeAux compare x xs (g_slist_sort_merge compare xs) l2

/-- GLib `g_slist_sort_real`: a list of `n >= 2` nodes is cut after its first
`n / 2` nodes, both halves are sorted and merged.  The first argument bounds
the recursion depth. -/
def g_slist_sort_real {α : Type} (compare : α → α → Int) : Nat → List α → List α
  | 0, list => list
  | depth + 1, list =>
    match list with
    | [] => []
    | [a] => [a]
    | a :: b :: rest =>
      let l := a :: b :: rest
      g_slist_sort_merge compare
        (g_slist_sort_real compare depth (l.take (l.length / 2)))
        (g_slist_sort_real compare depth (l.drop (l.length / 2)))

/-- The C function `g_slist_sort (list, compare_func)`. -/
def g_slist_sort {α : Type} (list : List α) (compare : α → α → Int) : List α :=
  g_slist_sort_real compare list.length list

/-! ## Data model -/

/-- An element of the array returned by `hi_module_get_entries`. -/
structure ModuleEntry where
  name : String
  icon : String
  deriving DecidableEq, Repr

/-- An element of the array returned by `hi_exported_methods`. -/
structure ShellModuleMethod where
  name : String
  function : Nat
  deriving DecidableEq, Repr

/-- A dynamic object as `g_module_open` returns it, with the symbols util.c
looks up in it.  `base_name` is `g_path_get_basename (g_module_name (dll))`.
A symbol that `g_module_symbol` does not find is `none`. -/
structure GModule where
  base_name : String
  hi_module_get_entries : Option (List ModuleEntry)
  hi_module_get_name : Option String
  hi_module_init : Bool
  hi_module_get_weight : Option Int
  hi_module_get_dependencies : Option (List String)
  hi_exported_methods : Option (List ShellModuleMethod)
  deriving DecidableEq, Repr

/-- The record `ShellModuleEntry` (callbacks left out). -/
structure ShellModuleEntry where
  name : String
  icon_file : String
  number : Nat
  deriving DecidableEq, Repr

/-- The record `ShellModule`. -/
structure ShellModule where
  name : String
  dll : GModule
  icon : Option String
  weight : Int
  entries : List ShellModuleEntry
  deriving DecidableEq, Repr

/-- The fields of `params` (type `ProgramParameters`) that util.c reads here. -/
structure ProgramParameters where
  gui_running : Bool
  autoload_deps : Bool
  use_modules : Option (List String)
  path_lib : String
  deriving DecidableEq, Repr

/-- What lies outside the program: the platform suffix `G_MODULE_SUFFIX`, the
effect of `g_module_open` on `<path_lib>/modules/<filename>`, and the answers
of the user to the dependency dialogs (`true` is GTK_RESPONSE_ACCEPT), by the
number of dialogs shown before. -/
structure Env where
  G_MODULE_SUFFIX : String
  g_module_open : String → Option GModule
  gtk_dialog_run : Nat → Bool

/-- The global state: `__module_methods` (`none` until the table is created),
`modules_list`, and two ghost counters that record the calls of `module_load`
(file names, in call order) and the number of dialogs shown. -/
structure World where
  module_methods : Option GHashTable
  modules_list : List ShellModule
  load_calls : List String
  dialogs : Nat
  deriving DecidableEq, Repr

/-- The messages of the `g_error` calls. -/
inductive Diagnostic where
  /-- Message: HardInfo cannot run without loading the additional module. -/
  | cannot_run_without_module
  /-- Message: Module "%s" depends on module "%s". -/
  | module_depends_on (module_name dep : String)
  /-- Message: No module could be loaded. Check permissions on "%s" and try again. -/
  | no_module_check_permissions (path_lib : String)
  /-- Message: No module could be loaded. Please use hardinfo -l to list all
  available modules and try again with a valid module list. -/
  | no_module_valid_list
  deriving DecidableEq, Repr

/-- How a call ends: it returns, it ends the process in `g_error`, it writes
through a null pointer, or the recursion bound of the embedding is used up. -/
inductive Outcome (α : Type) where
  | ret (a : α)
  | fatal (d : Diagnostic)
  | crash
  | out_of_fuel
  deriving DecidableEq, Repr

/-! ## Method registry -/

/-- The loop of `module_register_methods` over the method array. -/
def register_loop (base_name : String) : List ShellModuleMethod → GHashTable → GHashTable
  | [], t => t
  | method :: methods, t =>
    let name := strend base_name '.'
    let method_name := name ++ "::" ++ method.name
    register_loop base_name methods (g_hash_table_insert t method_name method.function)

/-- The function `module_register_methods`. -/
def module_register_methods (module : ShellModule) (w : World) : World :=
  let table := match w.module_methods with
    | none => []
    | some t => t
  match module.dll.hi_exported_methods with
  | some methods =>
    { w with module_methods := some (register_loop module.dll.base_name methods table) }
  | none => { w with module_methods := some table }

/-- The callback `remove_module_methods (key, value, data)`. -/
def remove_module_methods (key : String) (_value : Nat) (data : String) : Bool :=
  g_str_has_prefix key data

/-- The registry part of `module_unload`: `g_hash_table_foreach_remove` with
`remove_module_methods` and the base file name.  On a table that was never
created GLib warns and removes nothing. -/
def module_unload_methods (module : ShellModule) (w : World) : World :=
  let name := module.dll.base_name
  { w with module_methods :=
      w.module_methods.map (fun t => g_hash_table_foreach_remove t remove_module_methods name) }

/-! ## Module loader -/

/-- The loop of `module_load` that turns the entry array into the list of
`ShellModuleEntry` records, numbered from `i`. -/
def load_entries : List ModuleEntry → Nat → List ShellModuleEntry
  | [], _ => []
  | e :: es, i =>
    { name := e.name, icon_file := e.icon, number := i } :: load_entries es (i + 1)

/-- The function `module_load (filename)`.  With a running GUI the icon name is
made by writing a NUL at `g_strrstr (filename, "." G_MODULE_SUFFIX)`, which is
a null pointer when the file name does not contain the suffix.  The call of
the init hook and the callbacks bound to the entries are code of the plugin
and leave no trace in the state kept here.  The first line records the call in
the ghost field `load_calls`. -/
def module_load (env : Env) (params : ProgramParameters) (filename : String)
    (w : World) : Outcome (World × Option ShellModule) :=
  let w := { w with load_calls := w.load_calls ++ [filename] }
  let icon : Outcome (Option String) :=
    if params.gui_running then
      match g_strrstr filename ("." ++ env.G_MODULE_SUFFIX) with
      | none => Outcome.crash
      | some dot => Outcome.ret (some (String.mk (filename.toList.take dot) ++ ".png"))
    else Outcome.ret none
  match icon with
  | Outcome.ret icon =>
    match env.g_module_open filename with
    | some dll =>
      match dll.hi_module_get_entries, dll.hi_module_get_name with
      | some entries, some name =>
        let module : ShellModule :=
          { name := name
            dll := dll
            icon := icon
            weight := match dll.hi_module_get_weight with
              | some weight => weight
              | none => 0
            entries := load_entries entries 0 }
        Outcome.ret (module_register_methods module w, some module)
      | _, _ => Outcome.ret (w, none)
    | none => Outcome.ret (w, none)
  | Outcome.fatal d => Outcome.fatal d
  | Outcome.crash => Outcome.crash
  | Outcome.out_of_fuel => Outcome.out_of_fuel

/-! ## Module directory -/

/-- The function `module_in_module_list (module, module_list)`; a `NULL` list
is `none`. -/
def module_in_module_list (module : String) (module_list : Option (List String)) : Bool :=
  match module_list with
  | none => true
  | some names => names.any (fun n => g_str_equal n module)

/-- Reduction of an integer into the range of `gint` (32-bit two's complement). -/
def to_gint (x : Int) : Int := (x + 2147483648) % 4294967296 - 2147483648

/-- The function `module_cmp`: `a->weight - b->weight` in `gint` arithmetic. -/
def module_cmp (a b : ShellModule) : Int := to_gint (a.weight - b.weight)

/-- The test `found` of `modules_check_deps`: some module of the list has the
base file name `dep`. -/
def dep_found (modules : List ShellModule) (dep : String) : Bool :=
  modules.any (fun m => g_str_equal m.dll.base_name dep)

/-- The function `modules_check_deps`, as a walk over the positions of its two
loops: `i` is the position of `mm` in `modules`, `j` the index into the
dependency array of that module.  The call `modules_check_deps (modules)` is
the walk from `(0, 0)`.  Every step uses one unit of `fuel`. -/
def check_deps_from (env : Env) (params : ProgramParameters) :
    Nat → Nat → Nat → World → List ShellModule → Outcome (World × List ShellModule)
  | 0, _, _, _, _ => Outcome.out_of_fuel
  | fuel + 1, i, j, w, modules =>
    match modules[i]? with
    | none => Outcome.ret (w, modules)
    | some module =>
      match module.dll.hi_module_get_dependencies with
      | none => check_deps_from env params fuel (i + 1) 0 w modules
      | some deps =>
        match deps[j]? with
        | none => check_deps_from env params fuel (i + 1) 0 w modules
        | some dep =>
          if dep_found modules dep then
            check_deps_from env params fuel i (j + 1) w modules
          else if params.autoload_deps then
            match module_load env params dep w with
            | Outcome.ret (w1, mod) =>
              let modules1 := match mod with
                | some m => modules ++ [m]
                | none => modules
              match check_deps_from env params fuel 0 0 w1 modules1 with
              | Outcome.ret (w2, modules2) =>
                check_deps_from env params fuel (i + 1) 0 w2 modules2
              | other => other
            | Outcome.fatal d => Outcome.fatal d
            | Outcome.crash => Outcome.crash
            | Outcome.out_of_fuel => Outcome.out_of_fuel
          else if params.gui_running then
            if env.gtk_dialog_run w.dialogs then
              match module_load env params dep { w with dialogs := w.dialogs + 1 } with
              | Outcome.ret (w1, mod) =>
                let modules1 := match mod with
                  | some m => m :: modules
                  | none => modules
                match check_deps_from env params fuel 0 0 w1 modules1 with
                | Outcome.ret (w2, modules2) =>
                  check_deps_from env params fuel
                    (i + (modules2.length - modules.length)) (j + 1) w2 modules2
                | other => other
              | Outcome.fatal d => Outcome.fatal d
              | Outcome.crash => Outcome.crash
              | Outcome.out_of_fuel => Outcome.out_of_fuel
            else Outcome.fatal Diagnostic.cannot_run_without_module
          else Outcome.fatal (Diagnostic.module_depends_on module.name dep)

/-- The function `modules_check_deps (modules)`. -/
def modules_check_deps (env : Env) (params : ProgramParameters) (fuel : Nat)
    (w : World) (modules : List ShellModule) : Outcome (World × List ShellModule) :=
  check_deps_from env params fuel 0 0 w modules

/-- The function `modules_get_list`. -/
def modules_get_list (w : World) : List ShellModule := w.modules_list

/-- The directory loop of `modules_load`: `names` are the results of
`g_dir_read_name` in order, `modules` is the list built so far. -/
def scan_dir (env : Env) (params : ProgramParameters) (module_list : Option (List String)) :
    List String → World → List ShellModule → Outcome (World × List ShellModule)
  | [], w, modules => Outcome.ret (w, modules)
  | filename :: names, w, modules =>
    if (g_strrstr filename ("." ++ env.G_MODULE_SUFFIX)).isSome
        && module_in_module_list filename module_list then
      match module_load env params filename w with
      | Outcome.ret (w1, some module) => scan_dir env params module_list names w1 (module :: modules)
      | Outcome.ret (w1, none) => scan_dir env params module_list names w1 modules
      | Outcome.fatal d => Outcome.fatal d
      | Outcome.crash => Outcome.crash
      | Outcome.out_of_fuel => Outcome.out_of_fuel
    else scan_dir env params module_list names w modules

/-- The first part of `modules_load`: `g_dir_open` and the directory loop.
`dir` is the content of `<path_lib>/modules` in the order of
`g_dir_read_name`, `none` when `g_dir_open` fails. -/
def modules_load_scan (env : Env) (params : ProgramParameters)
    (dir : Option (List String)) (module_list : Option (List String)) (w : World) :
    Outcome (World × List ShellModule) :=
  match dir with
  | some names => scan_dir env params module_list names w []
  | none => Outcome.ret (w, [])

/-- The function `modules_load (module_list)`. -/
def modules_load (env : Env) (params : ProgramParameters) (fuel : Nat)
    (dir : Option (List String)) (module_list : Option (List String)) (w : World) :
    Outcome (World × List ShellModule) :=
  match modules_load_scan env params dir module_list w with
  | Outcome.ret (w1, modules) =>
    match modules_check_deps env params fuel w1 modules with
    | Outcome.ret (w2, modules) =>
      if modules.length = 0 then
        if params.use_modules = none then
          Outcome.fatal (Diagnostic.no_module_check_permissions params.path_lib)
        else Outcome.fatal Diagnostic.no_module_valid_list
      else
        let sorted := g_slist_sort modules module_cmp
        Outcome.ret ({ w2 with modules_list := sorted }, sorted)
    | other => other
  | other => other

/-- The function `modules_load_selected`. -/
def modules_load_selected (env : Env) (params : ProgramParameters) (fuel : Nat)
    (dir : Option (List String)) (w : World) : Outcome (World × List ShellModule) :=
  modules_load env params fuel dir params.use_modules w

/-- The function `modules_load_all`. -/
def modules_load_all (env : Env) (params : ProgramParameters) (fuel : Nat)
    (dir : Option (List String)) (w : World) : Outcome (World × List ShellModule) :=
  modules_load env params fuel dir none w

/-! ## Concrete plugin directories -/

/-- A dynamic object with both mandatory symbols and one entry. -/
def plugin (base_name : String) (weight : Option Int) (deps : Option (List String))
    (methods : Option (List ShellModuleMethod)) : GModule where
  base_name := base_name
  hi_module_get_entries := some [{ name := "Summary", icon := "summary.png" }]
  hi_module_get_name := some base_name
  hi_module_init := true
  hi_module_get_weight := weight
  hi_module_get_dependencies := deps
  hi_exported_methods := methods

/-- A plugin directory on a platform whose `G_MODULE_SUFFIX` is "so": every
dialog is accepted, `files` lists what `g_module_open` finds. -/
def plugin_dir (files : List (String × GModule)) : Env where
  G_MODULE_SUFFIX := "so"
  g_module_open := fun filename => (files.find? (fun p => p.1 == filename)).map Prod.snd
  gtk_dialog_run := fun _ => true

/-- The state at program start: no registry, no modules. -/
def World.initial : World where
  module_methods := none
  modules_list := []
  load_calls := []
  dialogs := 0

/-- Command line without GUI: `autoload` is the flag of the same name,
`use_modules` the module list if one was given. -/
def cli (autoload : Bool) (use_modules : Option (List String)) : ProgramParameters where
  gui_running := false
  autoload_deps := autoload
  use_modules := use_modules
  path_lib := "/usr/lib/hardinfo"

/-- The module record that `module_load` builds for a dynamic object opened
without GUI. -/
def record_of (dll : GModule) : ShellModule where
  name := dll.base_name
  dll := dll
  icon := none
  weight := match dll.hi_module_get_weight with
    | some weight => weight
    | none => 0
  entries := [{ name := "Summary", icon_file := "summary.png", number := 0 }]

/-- A module `cpu.so` that exports one method. -/
def cpu_so : GModule := plugin "cpu.so" (some 10) none (some [{ name := "getInfo", function := 7 }])

/-- The value a call returns, `none` when it does not return. -/
def Outcome.value? {α : Type} : Outcome α → Option α
  | Outcome.ret a => some a
  | _ => none

/-- Two modules whose weights differ by more than `G_MAXINT`. -/
def far_apart_dir : Env :=
  plugin_dir [("lo.so", plugin "lo.so" (some (-1)) none none),
              ("hi.so", plugin "hi.so" (some 2147483647) none none)]

/-- A directory that holds a copy of a module under the name `cpu.so.bak`. -/
def backup_dir : Env :=
  plugin_dir [("cpu.so.bak", plugin "cpu.so.bak" (some 10) none none)]

/-- A file that opens as a dynamic object but exports no `hi_module_get_name`. -/
def nameless_so : GModule :=
  { plugin "nameless.so" none none (some [{ name := "getInfo", function := 7 }]) with
    hi_module_get_name := none }

/-- The module record that `module_load (filename)` returns, `none` when it
returns `NULL` or does not return; the record does not depend on the state. -/
def loaded_record (env : Env) (params : ProgramParameters) (filename : String) :
    Option ShellModule :=
  match module_load env params filename World.initial with
  | Outcome.ret (_, mod) => mod
  | _ => none

/-- The base file names of a module list, as `modules_check_deps` reads them. -/
def base_names (modules : List ShellModule) : List String :=
  modules.map (fun m => m.dll.base_name)

/-- Every declared dependency of every module of the list is the base file
name of some module of the list. -/
def deps_closed (modules : List ShellModule) : Prop :=
  ∀ m ∈ modules, ∀ deps, m.dll.hi_module_get_dependencies = some deps →
    ∀ d ∈ deps, ∃ m1 ∈ modules, m1.dll.base_name = d

/-- Length of the dependency array of a module, 0 without the symbol. -/
def deps_length (m : ShellModule) : Nat :=
  match m.dll.hi_module_get_dependencies with
  | some deps => deps.length
  | none => 0

/-- Number of loop steps of `modules_check_deps` on a list that needs no load:
one per module, one per declared dependency. -/
def walk_cost : List ShellModule → Nat
  | [] => 0
  | m :: modules => deps_length m + 1 + walk_cost modules

/-- Number of loop steps left at the position `(i, j)` of the walk of
`modules_check_deps` over a list that needs no load. -/
def walk_rem (modules : List ShellModule) (i j : Nat) : Nat :=
  match modules[i]? with
  | none => 0
  | some m => (deps_length m - j) + 1 + walk_cost (modules.drop (i + 1))

/-- From the position `(i, j)` of the walk on, every dependency is found:
the dependencies from index `j` on of the module at `i`, and all dependencies
of the modules behind it. -/
def closed_from (modules : List ShellModule) (i j : Nat) : Prop :=
  ∀ k m deps n dep, modules[k]? = some m → m.dll.hi_module_get_dependencies = some deps →
    deps[n]? = some dep → (i < k ∨ (k = i ∧ j ≤ n)) → dep_found modules dep = true

/-- The chain of the spec: `a.so` depends on `b.so`, `b.so` on `c.so`. -/
def chain_dir : Env :=
  plugin_dir [("a.so", plugin "a.so" none (some ["b.so"]) none),
              ("b.so", plugin "b.so" none (some ["c.so"]) none),
              ("c.so", plugin "c.so" none none none)]

/-- The modules that the directory loop of `modules_load` loads, in the order
in which `g_dir_read_name` returns their files. -/
def discovered (env : Env) (params : ProgramParameters) (module_list : Option (List String))
    (names : List String) : List ShellModule :=
  names.filterMap (fun filename =>
    if (g_strrstr filename ("." ++ env.G_MODULE_SUFFIX)).isSome
        && module_in_module_list filename module_list then
      loaded_record env params filename
    else none)

/-- The list `result` extends `modules`: the modules of `modules` keep their
relative order in it, and every other module of it was made by `module_load`. -/
def extends_by_loads (env : Env) (params : ProgramParameters)
    (modules result : List ShellModule) : Prop :=
  modules.Sublist result
    ∧ ∀ m ∈ result, m ∈ modules ∨ ∃ filename, loaded_record env params filename = some m

/-- Three modules, two of them with the same weight. -/
def tie_dir : Env :=
  plugin_dir [("first.so", plugin "first.so" (some 5) none none),
              ("other.so", plugin "other.so" (some 1) none none),
              ("second.so", plugin "second.so" (some 5) none none)]

/-- The missing dependency names of a candidate set: a name that is not the
base file name of a candidate and is declared by a candidate, or by the module
that `module_load` returns for a missing dependency name. -/
inductive missing_dep (env : Env) (params : ProgramParameters)
    (candidates : List ShellModule) : String → Prop where
  | direct (m : ShellModule) (deps : List String) (d : String) :
      m ∈ candidates → m.dll.hi_module_get_dependencies = some deps → d ∈ deps →
      dep_found candidates d = false → missing_dep env params candidates d
  | step (d1 : String) (m : ShellModule) (deps : List String) (d : String) :
      missing_dep env params candidates d1 → loaded_record env params d1 = some m →
      m.dll.hi_module_get_dependencies = some deps → d ∈ deps →
      dep_found candidates d = false → missing_dep env params candidates d

/-- The file `filename` is loadable: `module_load (filename)` returns a module
record, and the base file name of its dynamic object is `filename`. -/
def loadable (env : Env) (params : ProgramParameters) (filename : String) : Prop :=
  ∃ m, loaded_record env params filename = some m ∧ m.dll.base_name = filename

/-- What holds of the modules that the dependency pass has appended so far:
their base file names are distinct, each is a missing dependency name of the
candidates, and each module is the record `module_load` returns for its name. -/
def loads_inv (env : Env) (params : ProgramParameters) (candidates added : List ShellModule) :
    Prop :=
  (base_names added).Nodup
    ∧ ∀ m ∈ added, missing_dep env params candidates m.dll.base_name
        ∧ loaded_record env params m.dll.base_name = some m

/-- Six modules whose weights are far enough apart for `module_cmp` to wrap. -/
def wrap_dir : Env :=
  plugin_dir [("f1.so", plugin "f1.so" (some 1500000000) none none),
              ("f2.so", plugin "f2.so" (some (-1500000000)) none none),
              ("f3.so", plugin "f3.so" (some (-1500000000)) none none),
              ("f4.so", plugin "f4.so" (some 1500000000) none none),
              ("f5.so", plugin "f5.so" (some 0) none none),
              ("f6.so", plugin "f6.so" (some (-1500000000)) none none)]

/-- The keys of the method registry, none while the table does not exist. -/
def registry_keys (w : World) : List String :=
  match w.module_methods with
  | none => []
  | some t => t.map Prod.fst

/-- The key under which `module_register_methods` stores the method
`method_name` of a module with base file name `base_name`. -/
def method_key (base_name method_name : String) : String :=
  strend base_name '.' ++ "::" ++ method_name

/-! ## Calling registered methods -/

/-- What a call of `module_call_method` or `module_call_method_param` does:
the string it returns (`none` is `NULL`), the functions it invoked with their
argument (ghost), and the state after the call. -/
structure MethodCall where
  result : Option String
  invoked : List (Nat × Option String)
  world : World

/-- The function `module_call_method (method)`.  `invoke` runs the function
at an address on an optional argument and gives the string it returns;
address 0 is the null pointer. -/
def module_call_method (invoke : Nat → Option String → Option String) (method : String)
    (w : World) : MethodCall :=
  match w.module_methods with
  | none => { result := none, invoked := [], world := w }
  | some t =>
    match g_hash_table_lookup t method with
    | none => { result := none, invoked := [], world := w }
    | some 0 => { result := none, invoked := [], world := w }
    | some function =>
      { result := invoke function none, invoked := [(function, none)], world := w }

/-- The function `module_call_method_param (method, parameter)`. -/
def module_call_method_param (invoke : Nat → Option String → Option String) (method : String)
    (parameter : String) (w : World) : MethodCall :=
  match w.module_methods with
  | none => { result := none, invoked := [], world := w }
  | some t =>
    match g_hash_table_lookup t method with
    | none => { result := none, invoked := [], world := w }
    | some 0 => { result := none, invoked := [], world := w }
    | some function =>
      { result := invoke function (some parameter), invoked := [(function, some parameter)],
        world := w }

/-! ## Unloading -/

/-- The fields of the main `Shell` that `module_unload_all` reads and writes:
`shell->tree->modules`, `shell->merge_ids` and `shell->selected`. -/
structure Shell where
  tree_modules : List ShellModule
  merge_ids : List Int
  selected : Option ShellModuleEntry
  deriving DecidableEq, Repr

/-- The function `module_unload (module)`: the removal of the methods of the
module from the registry; the rest of the function closes the dynamic object
and frees the record, which leaves no trace in the state kept here. -/
def module_unload (module : ShellModule) (w : World) : World :=
  module_unload_methods module w

/-- The function `module_unload_all`.  `collaborators` is the effect on the
shell of the calls into other files made between the unload loop and the
final assignments (`gtk_ui_manager_remove_ui`, `sync_manager_clear_entries`,
`shell_clear_timeouts`, `shell_clear_tree_models`, `shell_reset_title`); none
of them can reach the static variables of util.c. -/
def module_unload_all (collaborators : Shell → Shell) (shell : Shell) (w : World) :
    Shell × World :=
  let w1 := shell.tree_modules.foldl (fun w module => module_unload module w) w
  let shell1 := collaborators shell
  ({ shell1 with merge_ids := [], tree_modules := [], selected := none }, w1)

/-! ## seconds_to_string -/

/-- The macro `plural (x)` of `seconds_to_string`. -/
def plural (x : Nat) : String := if x > 1 then "s" else ""

/-- The conversion `%d` of `g_strdup_printf` applied to an `unsigned int`:
the value is read as an `int`, so from `2^31` on it prints as the negative
number `x - 2^32`. -/
def printf_d (x : Nat) : String :=
  if x < 2147483648 then toString x else "-" ++ toString (4294967296 - x)

/-- The function `seconds_to_string (seconds)`; `seconds` is an `unsigned
int`, all operations are divisions and remainders and cannot overflow. -/
def seconds_to_string (seconds : Nat) : String :=
  let minutes := seconds / 60
  let hours := minutes / 60
  let minutes := minutes % 60
  let days := hours / 24
  let hours := hours % 24
  if days < 1 then
    if hours < 1 then
      printf_d minutes ++ " minute" ++ plural minutes
    else
      printf_d hours ++ " hour" ++ plural hours ++ ", " ++ printf_d minutes ++ " minute"
        ++ plural minutes
  else
    printf_d days ++ " day" ++ plural days ++ ", " ++ printf_d hours ++ " hour" ++ plural hours
      ++ " and " ++ printf_d minutes ++ " minute" ++ plural minutes

/-- A unit word with its number in front and the suffix "s" exactly when the
number is greater than 1. -/
def counted (n : Nat) (unit : String) : String :=
  toString n ++ " " ++ unit ++ (if n > 1 then "s" else "")

/-- The text of a duration as the specification words it, from
`d = seconds / 86400`, `h = (seconds / 3600) mod 24` and
`m = (seconds / 60) mod 60`. -/
def seconds_to_string_spec (seconds : Nat) : String :=
  let d := seconds / 86400
  let h := (seconds / 3600) % 24
  let m := (seconds / 60) % 60
  if d = 0 ∧ h = 0 then counted m "minute"
  else if d = 0 then counted h "hour" ++ ", " ++ counted m "minute"
  else counted d "day" ++ ", " ++ counted h "hour" ++ " and " ++ counted m "minute"

/-! ## More concrete inputs -/

/-- The plugin directory of the scenario of the specification: `cpu.so` of
weight 10 without dependencies, `mem.so` of weight 5 that depends on `cpu.so`. -/
def spec_dir : Env :=
  plugin_dir [("cpu.so", plugin "cpu.so" (some 10) none none),
              ("mem.so", plugin "mem.so" (some 5) (some ["cpu.so"]) none)]

/-- Parameters with autoload enabled and the module list `use_modules`. -/
def autoload_params (gui : Bool) (use_modules : Option (List String)) : ProgramParameters where
  gui_running := gui
  autoload_deps := true
  use_modules := use_modules
  path_lib := "/usr/lib/hardinfo"

/-- A cyclic configuration: `a.so` depends on `b.so`, `b.so` on `a.so`. -/
def cycle_dir : Env :=
  plugin_dir [("a.so", plugin "a.so" none (some ["b.so"]) none),
              ("b.so", plugin "b.so" none (some ["a.so"]) none)]

/-- A directory in which `mem.so` depends on `cpu.so` and the file `cpu.so`
does not exist. -/
def unavailable_dir : Env :=
  plugin_dir [("mem.so", plugin "mem.so" (some 5) (some ["cpu.so"]) none)]

/-- The module record that `module_load` builds for a dynamic object, with the
icon `icon` when the GUI is running. -/
def record_with_icon (gui : Bool) (dll : GModule) (icon : String) : ShellModule :=
  { record_of dll with icon := if gui then some icon else none }

/-- The directory with `mem.so` and `cpu.so`, and a user who declines every
dialog. -/
def declining_dir : Env :=
  { spec_dir with gtk_dialog_run := fun _ => false }

/-! ## Theorems -/

/-! ### C1: registering and unregistering methods -/

/-- C1, evaluated at the module `cpu.so` with the exported method `getInfo`:
`module_register_methods` stores the key `cpu::getInfo` (base name cut at its
first dot), and the removal that `module_unload` performs, with the uncut base
name `cpu.so` as prefix, leaves that key in the registry. -/
theorem register_then_unload_keeps_key :
    (module_register_methods (record_of cpu_so) World.initial).module_methods
        = some [("cpu::getInfo", 7)]
      ∧ (module_unload_methods (record_of cpu_so)
          (module_register_methods (record_of cpu_so) World.initial)).module_methods
        = some [("cpu::getInfo", 7)] := by
  decide

/-! ### C2: order of the sorted list -/

/-- C2, evaluated at a directory with `lo.so` (weight -1) and `hi.so` (weight
`G_MAXINT`): `module_cmp` computes `G_MAXINT - (-1)`, which wraps to `G_MININT`,
so `hi.so` is put first; the list stored in `modules_list` and returned has
the weights `[2147483647, -1]`, which is not ascending. -/
theorem modules_load_wrapped_weights_unsorted :
    (modules_load_all far_apart_dir (cli false none) 8 (some ["lo.so", "hi.so"])
        World.initial).value?.map
      (fun r => (r.2.map ShellModule.weight, (modules_get_list r.1).map ShellModule.weight))
      = some ([2147483647, -1], [2147483647, -1]) := by
  decide

/-! ### C7: a missing mandatory symbol -/

/-- C7: when the dynamic object of `filename` opens (the call reaches
`g_module_open`, which yields `dll`) but `hi_module_get_entries` or
`hi_module_get_name` is missing, `module_load` returns no module record and the
method registry and the module list are what they were before the call. -/
theorem module_load_missing_symbol (env : Env) (params : ProgramParameters)
    (filename : String) (w : World) (dll : GModule)
    (hicon : params.gui_running = true →
      (g_strrstr filename ("." ++ env.G_MODULE_SUFFIX)).isSome = true)
    (hopen : env.g_module_open filename = some dll)
    (hmiss : dll.hi_module_get_entries = none ∨ dll.hi_module_get_name = none) :
    ∃ w1, module_load env params filename w = Outcome.ret (w1, none)
      ∧ w1.module_methods = w.module_methods ∧ w1.modules_list = w.modules_list := by
  refine ⟨{ w with load_calls := w.load_calls ++ [filename] }, ?_, rfl, rfl⟩
  unfold module_load
  cases hgui : params.gui_running
  · simp only [hopen]
    rcases hmiss with h | h
    · simp [h]
    · cases he : dll.hi_module_get_entries <;> simp [h]
  · have hs := hicon hgui
    obtain ⟨dot, hdot⟩ := Option.isSome_iff_exists.mp hs
    simp only [hdot, hopen]
    rcases hmiss with h | h
    · simp [h]
    · cases he : dll.hi_module_get_entries <;> simp [h]

/-- C7 at the file `nameless.so`, which opens and exports no
`hi_module_get_name`, with a running GUI and the registry holding one key of
another module. -/
theorem module_load_missing_symbol_witness :
    ∃ w1, module_load (plugin_dir [("nameless.so", nameless_so)])
        { cli false none with gui_running := true } "nameless.so"
        { World.initial with module_methods := some [("cpu::getInfo", 7)] }
          = Outcome.ret (w1, none)
      ∧ w1.module_methods = some [("cpu::getInfo", 7)]
      ∧ w1.modules_list = [] :=
  module_load_missing_symbol (plugin_dir [("nameless.so", nameless_so)])
    { cli false none with gui_running := true }
    "nameless.so" { World.initial with module_methods := some [("cpu::getInfo", 7)] }
    nameless_so (by decide) (by decide) (by decide)

/-! ### C8: the module filter -/

/-- C8 fails at an empty filter: a list with zero names accepts no file. -/
theorem module_in_module_list_empty_filter :
    module_in_module_list "cpu.so" (some []) = false := by
  decide

/-- C8, amended: `module_in_module_list` accepts a name exactly when the
filter is absent or the name equals one of the names of the filter. -/
theorem module_in_module_list_iff (module : String) (module_list : Option (List String)) :
    module_in_module_list module module_list = true
      ↔ module_list = none ∨ ∃ names, module_list = some names ∧ module ∈ names := by
  cases module_list with
  | none => simp [module_in_module_list]
  | some names =>
    simp only [module_in_module_list, g_str_equal, List.any_eq_true, beq_iff_eq]
    constructor
    · rintro ⟨n, hn, rfl⟩
      exact Or.inr ⟨names, rfl, hn⟩
    · rintro (h | ⟨ns, hns, hm⟩)
      · cases h
      · cases hns
        exact ⟨module, hm, rfl⟩

/-! ### Facts about `module_load` -/

/-- The three ways a call of `module_load` ends: a null pointer write in the
icon code, `NULL`, or a module record with its methods registered. -/
theorem module_load_eq (env : Env) (params : ProgramParameters) (filename : String)
    (w : World) :
    (params.gui_running = true ∧ g_strrstr filename ("." ++ env.G_MODULE_SUFFIX) = none
        ∧ module_load env params filename w = Outcome.crash
        ∧ loaded_record env params filename = none)
    ∨ (module_load env params filename w
          = Outcome.ret ({ w with load_calls := w.load_calls ++ [filename] }, none)
        ∧ loaded_record env params filename = none
        ∧ (env.g_module_open filename = none
            ∨ ∃ dll, env.g_module_open filename = some dll
                ∧ (dll.hi_module_get_entries = none ∨ dll.hi_module_get_name = none)))
    ∨ (∃ m, module_load env params filename w
          = Outcome.ret (module_register_methods m
              { w with load_calls := w.load_calls ++ [filename] }, some m)
        ∧ env.g_module_open filename = some m.dll
        ∧ m.weight = (match m.dll.hi_module_get_weight with
            | some weight => weight
            | none => 0)
        ∧ loaded_record env params filename = some m) := by
  unfold loaded_record module_load
  cases hgui : params.gui_running
  · simp only [Bool.false_eq_true, ↓reduceIte, false_and, false_or]
    cases hopen : env.g_module_open filename with
    | none => exact Or.inl ⟨rfl, rfl, Or.inl rfl⟩
    | some dll =>
      dsimp only
      cases he : dll.hi_module_get_entries with
      | none => exact Or.inl ⟨rfl, rfl, Or.inr ⟨dll, rfl, Or.inl he⟩⟩
      | some entries =>
        cases hn : dll.hi_module_get_name with
        | none => exact Or.inl ⟨rfl, rfl, Or.inr ⟨dll, rfl, Or.inr hn⟩⟩
        | some name => exact Or.inr ⟨_, rfl, rfl, rfl, rfl⟩
  · cases hdot : g_strrstr filename ("." ++ env.G_MODULE_SUFFIX) with
    | none => exact Or.inl ⟨rfl, rfl, by simp, by simp⟩
    | some dot =>
      right
      simp only [↓reduceIte]
      cases hopen : env.g_module_open filename with
      | none => exact Or.inl ⟨rfl, rfl, Or.inl rfl⟩
      | some dll =>
        dsimp only
        cases he : dll.hi_module_get_entries with
        | none => exact Or.inl ⟨rfl, rfl, Or.inr ⟨dll, rfl, Or.inl he⟩⟩
        | some entries =>
          cases hn : dll.hi_module_get_name with
          | none => exact Or.inl ⟨rfl, rfl, Or.inr ⟨dll, rfl, Or.inr hn⟩⟩
          | some name => exact Or.inr ⟨_, rfl, rfl, rfl, rfl⟩

/-- The function `module_register_methods` changes the registry only. -/
theorem module_register_methods_frame (m : ShellModule) (w : World) :
    (module_register_methods m w).load_calls = w.load_calls
      ∧ (module_register_methods m w).dialogs = w.dialogs
      ∧ (module_register_methods m w).modules_list = w.modules_list := by
  unfold module_register_methods
  cases m.dll.hi_exported_methods <;> simp

/-- What a returning `module_load` leaves in the world. -/
theorem module_load_ret {env : Env} {params : ProgramParameters} {filename : String}
    {w w1 : World} {mod : Option ShellModule}
    (h : module_load env params filename w = Outcome.ret (w1, mod)) :
    w1.load_calls = w.load_calls ++ [filename] ∧ w1.dialogs = w.dialogs
      ∧ w1.modules_list = w.modules_list
      ∧ (∀ m, mod = some m → env.g_module_open filename = some m.dll) := by
  rcases module_load_eq env params filename w with
    ⟨_, _, hc, _⟩ | ⟨hr, _, _⟩ | ⟨m, hr, ho, _, _⟩
  · rw [hc] at h; cases h
  · rw [hr] at h
    cases h
    exact ⟨rfl, rfl, rfl, fun m hm => by cases hm⟩
  · rw [hr] at h
    cases h
    obtain ⟨h1, h2, h3⟩ := module_register_methods_frame m
      { w with load_calls := w.load_calls ++ [filename] }
    exact ⟨h1, h2, h3, fun m1 hm => by cases hm; exact ho⟩

/-- A call of `module_load` returns or writes through a null pointer. -/
theorem module_load_returns_or_crashes (env : Env) (params : ProgramParameters)
    (filename : String) (w : World) :
    (∃ w1 mod, module_load env params filename w = Outcome.ret (w1, mod))
      ∨ module_load env params filename w = Outcome.crash := by
  rcases module_load_eq env params filename w with ⟨_, _, hc, _⟩ | ⟨hr, _, _⟩ | ⟨m, hr, _⟩
  · exact Or.inr hc
  · exact Or.inl ⟨_, _, hr⟩
  · exact Or.inl ⟨_, _, hr⟩

/-- A file name that contains the suffix text never makes `module_load`
crash. -/
theorem module_load_returns_of_suffix (env : Env) (params : ProgramParameters)
    (filename : String) (w : World)
    (h : params.gui_running = true →
      (g_strrstr filename ("." ++ env.G_MODULE_SUFFIX)).isSome = true) :
    ∃ w1 mod, module_load env params filename w = Outcome.ret (w1, mod) := by
  rcases module_load_eq env params filename w with ⟨hg, hn, _⟩ | ⟨hr, _, _⟩ | ⟨m, hr, _⟩
  · have := h hg
    rw [hn] at this
    cases this
  · exact ⟨_, _, hr⟩
  · exact ⟨_, _, hr⟩

/-! ### C9: which directory entries are considered -/

/-- The test `g_strrstr (haystack, needle) != NULL` holds exactly when the
needle occurs somewhere in the haystack. -/
theorem g_strrstr_isSome_iff (haystack needle : String) :
    (g_strrstr haystack needle).isSome = true ↔ needle.toList <:+: haystack.toList := by
  unfold g_strrstr
  by_cases hn : needle.toList.isEmpty = true
  · rw [if_pos hn]
    have : needle.toList = [] := List.isEmpty_iff.mp hn
    rw [this]
    simp
  · rw [if_neg hn]
    rw [Option.isSome_iff_ne_none, Ne, List.getLast?_eq_none_iff, List.filter_eq_nil_iff]
    push_neg
    constructor
    · rintro ⟨i, _, hi⟩
      rw [List.isPrefixOf_iff_prefix] at hi
      obtain ⟨t, ht⟩ := hi
      refine ⟨haystack.toList.take i, t, ?_⟩
      rw [List.append_assoc, ht, List.take_append_drop]
    · rintro ⟨s, t, hst⟩
      refine ⟨s.length, ?_, ?_⟩
      · rw [List.mem_range, ← hst]
        simp only [List.length_append]
        omega
      · rw [List.isPrefixOf_iff_prefix, ← hst, List.append_assoc, List.drop_left]
        exact ⟨t, rfl⟩

/-- C9 fails at the entry `cpu.so.bak`: its name does not end with ".so", yet
the scan calls `module_load` on it and puts the module into the list. -/
theorem scan_dir_loads_backup_file :
    ¬ ("." ++ backup_dir.G_MODULE_SUFFIX).toList <:+ "cpu.so.bak".toList
      ∧ (scan_dir backup_dir (cli false none) none ["cpu.so.bak"] World.initial []).value?.map
          (fun r => (r.1.load_calls, r.2.map (fun m => m.dll.base_name)))
        = some (["cpu.so.bak"], ["cpu.so.bak"]) := by
  decide

/-- C9, amended: for every directory entry the scan calls `module_load` on the
file exactly when its name contains the text "." G_MODULE_SUFFIX somewhere
(and the name passes the module filter); the scan of one entry always
returns. -/
theorem scan_dir_considers_iff (env : Env) (params : ProgramParameters)
    (module_list : Option (List String)) (filename : String) (w : World) :
    ∃ w1 modules, scan_dir env params module_list [filename] w [] = Outcome.ret (w1, modules)
      ∧ (w1.load_calls = w.load_calls ++ [filename]
          ↔ (("." ++ env.G_MODULE_SUFFIX).toList <:+: filename.toList
              ∧ module_in_module_list filename module_list = true)) := by
  rw [← g_strrstr_isSome_iff]
  unfold scan_dir
  by_cases hc : ((g_strrstr filename ("." ++ env.G_MODULE_SUFFIX)).isSome
        && module_in_module_list filename module_list) = true
  · rw [if_pos hc]
    have hc2 := hc
    rw [Bool.and_eq_true] at hc2
    obtain ⟨w1, mod, hload⟩ := module_load_returns_of_suffix env params filename w
      (fun _ => hc2.1)
    have hcalls := (module_load_ret hload).1
    rw [hload]
    cases mod with
    | none => exact ⟨w1, [], by simp [scan_dir], by simp [hcalls, hc2.1, hc2.2]⟩
    | some m => exact ⟨w1, [m], by simp [scan_dir], by simp [hcalls, hc2.1, hc2.2]⟩
  · rw [if_neg hc]
    refine ⟨w, [], by simp [scan_dir], ?_⟩
    rw [Bool.and_eq_true] at hc
    constructor
    · intro h
      have := congrArg List.length h
      simp at this
    · intro h
      exact absurd h hc

/-! ### C10: the empty module set -/

/-- C10 fails for `modules_load_all` when the command line named modules: the
load is given no filter, the directory is empty, and the diagnostic is the one
about a valid module list. -/
theorem modules_load_all_reports_module_list :
    modules_load_all (plugin_dir []) (cli false (some ["cpu.so"])) 4 (some []) World.initial
      = Outcome.fatal Diagnostic.no_module_valid_list := by
  decide

/-- C10, amended: whenever the module set is empty after the scan and the
dependency pass, `modules_load` ends in the fatal condition, and the
diagnostic is chosen by `params.use_modules`: the message about permissions
when it is `NULL`, the message about a valid module list otherwise, whatever
filter this load was given. -/
theorem modules_load_empty_fatal (env : Env) (params : ProgramParameters) (fuel : Nat)
    (dir : Option (List String)) (module_list : Option (List String))
    (w w1 w2 : World) (modules : List ShellModule)
    (hscan : modules_load_scan env params dir module_list w = Outcome.ret (w1, modules))
    (hdeps : modules_check_deps env params fuel w1 modules = Outcome.ret (w2, [])) :
    modules_load env params fuel dir module_list w
      = Outcome.fatal (if params.use_modules = none
          then Diagnostic.no_module_check_permissions params.path_lib
          else Diagnostic.no_module_valid_list) := by
  unfold modules_load
  rw [hscan]
  simp only [hdeps, List.length_nil, ↓reduceIte]
  split <;> rfl

/-- C10, amended, at an empty plugin directory read without filter and without
module list on the command line. -/
theorem modules_load_empty_fatal_witness :
    modules_load (plugin_dir []) (cli false none) 4 (some []) none World.initial
      = Outcome.fatal (if (cli false none).use_modules = none
          then Diagnostic.no_module_check_permissions (cli false none).path_lib
          else Diagnostic.no_module_valid_list) :=
  modules_load_empty_fatal (plugin_dir []) (cli false none) 4 (some []) none
    World.initial World.initial World.initial [] (by decide) (by decide)

/-! ### `g_slist_sort` with a comparison that agrees with a key -/

section SortLemmas

variable {α : Type} (compare : α → α → Int) (key : α → Int)

theorem g_slist_sort_merge_nil_right (l : List α) : g_slist_sort_merge compare l [] = l := by
  cases l <;> rfl

theorem g_slist_sort_merge_cons_cons (x y : α) (xs ys : List α) :
    g_slist_sort_merge compare (x :: xs) (y :: ys)
      = if compare x y ≤ 0 then x :: g_slist_sort_merge compare xs (y :: ys)
        else y :: g_slist_sort_merge compare (x :: xs) ys := by
  rfl

/-- The merge step keeps every element. -/
theorem g_slist_sort_merge_perm (l1 l2 : List α) :
    (g_slist_sort_merge compare l1 l2).Perm (l1 ++ l2) := by
  induction l1 generalizing l2 with
  | nil => exact List.Perm.refl _
  | cons x xs ih1 =>
    induction l2 with
    | nil => rw [g_slist_sort_merge_nil_right, List.append_nil]
    | cons y ys ih2 =>
      rw [g_slist_sort_merge_cons_cons]
      split
      · exact (ih1 (y :: ys)).cons x
      · exact (ih2.cons y).trans List.perm_middle.symm

theorem g_slist_sort_merge_mem {l1 l2 : List α} {a : α} :
    a ∈ g_slist_sort_merge compare l1 l2 ↔ a ∈ l1 ∨ a ∈ l2 := by
  rw [(g_slist_sort_merge_perm compare l1 l2).mem_iff, List.mem_append]

/-- Merging two lists that ascend in `key` gives a list that ascends in `key`,
when `compare` agrees with the order of the keys on their elements. -/
theorem g_slist_sort_merge_sorted (l1 l2 : List α)
    (hc : ∀ a ∈ l1, ∀ b ∈ l2, (compare a b ≤ 0 ↔ key a ≤ key b))
    (h1 : l1.Pairwise (fun a b => key a ≤ key b))
    (h2 : l2.Pairwise (fun a b => key a ≤ key b)) :
    (g_slist_sort_merge compare l1 l2).Pairwise (fun a b => key a ≤ key b) := by
  induction l1 generalizing l2 with
  | nil => exact h2
  | cons x xs ih1 =>
    induction l2 with
    | nil => rw [g_slist_sort_merge_nil_right]; exact h1
    | cons y ys ih2 =>
      rw [g_slist_sort_merge_cons_cons]
      have hxy := hc x (List.mem_cons_self _ _) y (List.mem_cons_self _ _)
      rw [List.pairwise_cons] at h1 h2
      split
      · rename_i hle
        have hk : key x ≤ key y := hxy.mp hle
        rw [List.pairwise_cons]
        refine ⟨?_, ih1 (y :: ys) (fun a ha b hb => hc a (List.mem_cons_of_mem _ ha) b hb)
          h1.2 (List.pairwise_cons.mpr h2)⟩
        intro a ha
        rcases (g_slist_sort_merge_mem compare).mp ha with ha | ha
        · exact h1.1 a ha
        · rcases List.mem_cons.mp ha with rfl | ha
          · exact hk
          · exact le_trans hk (h2.1 a ha)
      · rename_i hle
        have hk : key y < key x := by
          by_contra hcon
          exact hle (hxy.mpr (not_lt.mp hcon))
        rw [List.pairwise_cons]
        refine ⟨?_, ih2 (fun a ha b hb => hc a ha b (List.mem_cons_of_mem _ hb)) h2.2⟩
        intro a ha
        rcases (g_slist_sort_merge_mem compare).mp ha with ha | ha
        · rcases List.mem_cons.mp ha with rfl | ha
          · exact le_of_lt hk
          · exact le_trans (le_of_lt hk) (h1.1 a ha)
        · exact h2.1 a ha

/-- The merge step is stable: the elements of one key keep their order, those
of the first list before those of the second. -/
theorem g_slist_sort_merge_filter (k : Int) (l1 l2 : List α)
    (hc : ∀ a ∈ l1, ∀ b ∈ l2, (compare a b ≤ 0 ↔ key a ≤ key b))
    (h1 : l1.Pairwise (fun a b => key a ≤ key b)) :
    (g_slist_sort_merge compare l1 l2).filter (fun a => key a = k)
      = l1.filter (fun a => key a = k) ++ l2.filter (fun a => key a = k) := by
  induction l1 generalizing l2 with
  | nil => simp [g_slist_sort_merge]
  | cons x xs ih1 =>
    induction l2 with
    | nil => rw [g_slist_sort_merge_nil_right]; simp
    | cons y ys ih2 =>
      rw [g_slist_sort_merge_cons_cons]
      have hxy := hc x (List.mem_cons_self _ _) y (List.mem_cons_self _ _)
      split
      · have ih := ih1 (y :: ys)
          (fun a ha b hb => hc a (List.mem_cons_of_mem _ ha) b hb) (List.pairwise_cons.mp h1).2
        by_cases hx : key x = k
        · simp only [List.filter_cons, hx, decide_True, ↓reduceIte, List.cons_append] at ih ⊢
          rw [ih]
        · simp only [List.filter_cons, hx, decide_False, Bool.false_eq_true, ↓reduceIte] at ih ⊢
          rw [ih]
      · rename_i hle
        have hk : key y < key x := by
          by_contra hcon
          exact hle (hxy.mpr (not_lt.mp hcon))
        have ih := ih2 (fun a ha b hb => hc a ha b (List.mem_cons_of_mem _ hb))
        rw [List.filter_cons, ih]
        by_cases hy : key y = k
        · have hnone : (x :: xs).filter (fun a => decide (key a = k)) = [] := by
            rw [List.filter_eq_nil_iff]
            intro a ha
            have : key x ≤ key a := by
              rcases List.mem_cons.mp ha with rfl | ha
              · exact le_refl _
              · exact (List.pairwise_cons.mp h1).1 a ha
            simp only [decide_eq_true_eq]
            omega
          simp [hy, hnone]
        · simp [hy]

/-- The function `g_slist_sort_real` with enough depth: a permutation that
ascends in `key` and keeps the order among the elements of each key. -/
theorem g_slist_sort_real_spec (k : Int) (depth : Nat) (l : List α) (hd : l.length ≤ depth)
    (hc : ∀ a ∈ l, ∀ b ∈ l, (compare a b ≤ 0 ↔ key a ≤ key b)) :
    (g_slist_sort_real compare depth l).Perm l
      ∧ (g_slist_sort_real compare depth l).Pairwise (fun a b => key a ≤ key b)
      ∧ (g_slist_sort_real compare depth l).filter (fun a => key a = k)
          = l.filter (fun a => key a = k) := by
  induction depth generalizing l with
  | zero =>
    have : l = [] := List.length_eq_zero.mp (Nat.le_zero.mp hd)
    subst this
    simp [g_slist_sort_real]
  | succ depth ih =>
    match l, hd, hc with
    | [], _, _ => simp [g_slist_sort_real]
    | [a], _, _ => simp [g_slist_sort_real]
    | a :: b :: rest, hd, hc =>
      have hlen : (a :: b :: rest).length = rest.length + 2 := by simp
      have hhalf : 1 ≤ (a :: b :: rest).length / 2 := by rw [hlen]; omega
      have hhalf2 : (a :: b :: rest).length / 2 < (a :: b :: rest).length := by
        rw [hlen]; omega
      have ht : ((a :: b :: rest).take ((a :: b :: rest).length / 2)).length ≤ depth := by
        rw [List.length_take]; rw [hlen] at hd hhalf2 ⊢; omega
      have hdr : ((a :: b :: rest).drop ((a :: b :: rest).length / 2)).length ≤ depth := by
        rw [List.length_drop]; rw [hlen] at hd hhalf ⊢; omega
      have hct : ∀ x ∈ (a :: b :: rest).take ((a :: b :: rest).length / 2),
          ∀ y ∈ (a :: b :: rest).take ((a :: b :: rest).length / 2),
          (compare x y ≤ 0 ↔ key x ≤ key y) :=
        fun x hx y hy => hc x (List.mem_of_mem_take hx) y (List.mem_of_mem_take hy)
      have hcd : ∀ x ∈ (a :: b :: rest).drop ((a :: b :: rest).length / 2),
          ∀ y ∈ (a :: b :: rest).drop ((a :: b :: rest).length / 2),
          (compare x y ≤ 0 ↔ key x ≤ key y) :=
        fun x hx y hy => hc x (List.mem_of_mem_drop hx) y (List.mem_of_mem_drop hy)
      obtain ⟨hp1, hs1, hf1⟩ := ih _ ht hct
      obtain ⟨hp2, hs2, hf2⟩ := ih _ hdr hcd
      have hcm : ∀ x ∈ g_slist_sort_real compare depth
            ((a :: b :: rest).take ((a :: b :: rest).length / 2)),
          ∀ y ∈ g_slist_sort_real compare depth
            ((a :: b :: rest).drop ((a :: b :: rest).length / 2)),
          (compare x y ≤ 0 ↔ key x ≤ key y) :=
        fun x hx y hy => hc x (List.mem_of_mem_take (hp1.mem_iff.mp hx))
          y (List.mem_of_mem_drop (hp2.mem_iff.mp hy))
      have hunfold : g_slist_sort_real compare (depth + 1) (a :: b :: rest)
          = g_slist_sort_merge compare
              (g_slist_sort_real compare depth
                ((a :: b :: rest).take ((a :: b :: rest).length / 2)))
              (g_slist_sort_real compare depth
                ((a :: b :: rest).drop ((a :: b :: rest).length / 2))) := rfl
      rw [hunfold]
      refine ⟨?_, g_slist_sort_merge_sorted compare key _ _ hcm hs1 hs2, ?_⟩
      · refine (g_slist_sort_merge_perm compare _ _).trans ?_
        refine (List.Perm.append hp1 hp2).trans ?_
        rw [List.take_append_drop]
      · rw [g_slist_sort_merge_filter compare key k _ _ hcm hs1, hf1, hf2, ← List.filter_append,
          List.take_append_drop]

/-- The function `g_slist_sort` with a comparison that agrees with `key`. -/
theorem g_slist_sort_spec (k : Int) (l : List α)
    (hc : ∀ a ∈ l, ∀ b ∈ l, (compare a b ≤ 0 ↔ key a ≤ key b)) :
    (g_slist_sort l compare).Perm l
      ∧ (g_slist_sort l compare).Pairwise (fun a b => key a ≤ key b)
      ∧ (g_slist_sort l compare).filter (fun a => key a = k)
          = l.filter (fun a => key a = k) :=
  g_slist_sort_real_spec compare key k l.length l (le_refl _) hc

end SortLemmas

/-- Inside the range of `gint` the reduction `to_gint` changes nothing. -/
theorem to_gint_of_range (x : Int) (h1 : -2147483648 ≤ x) (h2 : x < 2147483648) :
    to_gint x = x := by
  unfold to_gint
  omega

/-- The function `module_cmp` orders two modules by weight when both weights
are below `2^30` in absolute value. -/
theorem module_cmp_le_iff (a b : ShellModule)
    (ha : -1073741824 ≤ a.weight ∧ a.weight < 1073741824)
    (hb : -1073741824 ≤ b.weight ∧ b.weight < 1073741824) :
    module_cmp a b ≤ 0 ↔ a.weight ≤ b.weight := by
  unfold module_cmp
  rw [to_gint_of_range _ (by omega) (by omega)]
  omega

/-! ### The steps of `modules_check_deps` -/

theorem dep_found_iff (modules : List ShellModule) (dep : String) :
    dep_found modules dep = true ↔ ∃ m ∈ modules, m.dll.base_name = dep := by
  simp [dep_found, g_str_equal]

theorem dep_found_append (l1 l2 : List ShellModule) (dep : String) :
    dep_found (l1 ++ l2) dep = (dep_found l1 dep || dep_found l2 dep) := by
  simp [dep_found]

theorem check_deps_from_end (env : Env) (params : ProgramParameters) (fuel i j : Nat)
    (w : World) (modules : List ShellModule) (hi : modules[i]? = none) :
    check_deps_from env params (fuel + 1) i j w modules = Outcome.ret (w, modules) := by
  rw [check_deps_from]
  simp only [hi]

theorem check_deps_from_no_deps (env : Env) (params : ProgramParameters) (fuel i j : Nat)
    (w : World) (modules : List ShellModule) (m : ShellModule) (hi : modules[i]? = some m)
    (hd : m.dll.hi_module_get_dependencies = none) :
    check_deps_from env params (fuel + 1) i j w modules
      = check_deps_from env params fuel (i + 1) 0 w modules := by
  rw [check_deps_from]
  simp only [hi, hd]

theorem check_deps_from_deps_end (env : Env) (params : ProgramParameters) (fuel i j : Nat)
    (w : World) (modules : List ShellModule) (m : ShellModule) (deps : List String)
    (hi : modules[i]? = some m) (hd : m.dll.hi_module_get_dependencies = some deps)
    (hj : deps[j]? = none) :
    check_deps_from env params (fuel + 1) i j w modules
      = check_deps_from env params fuel (i + 1) 0 w modules := by
  rw [check_deps_from]
  simp only [hi, hd, hj]

theorem check_deps_from_found (env : Env) (params : ProgramParameters) (fuel i j : Nat)
    (w : World) (modules : List ShellModule) (m : ShellModule) (deps : List String)
    (dep : String) (hi : modules[i]? = some m)
    (hd : m.dll.hi_module_get_dependencies = some deps) (hj : deps[j]? = some dep)
    (hf : dep_found modules dep = true) :
    check_deps_from env params (fuel + 1) i j w modules
      = check_deps_from env params fuel i (j + 1) w modules := by
  rw [check_deps_from]
  simp only [hi, hd, hj, hf, ↓reduceIte]

theorem check_deps_from_autoload (env : Env) (params : ProgramParameters) (fuel i j : Nat)
    (w w1 : World) (modules : List ShellModule) (m : ShellModule) (deps : List String)
    (dep : String) (mod : Option ShellModule) (hi : modules[i]? = some m)
    (hd : m.dll.hi_module_get_dependencies = some deps) (hj : deps[j]? = some dep)
    (hf : dep_found modules dep = false) (hauto : params.autoload_deps = true)
    (hload : module_load env params dep w = Outcome.ret (w1, mod)) :
    check_deps_from env params (fuel + 1) i j w modules
      = match check_deps_from env params fuel 0 0 w1 (modules ++ mod.toList) with
        | Outcome.ret (w2, modules2) => check_deps_from env params fuel (i + 1) 0 w2 modules2
        | other => other := by
  rw [check_deps_from]
  simp only [hi, hd, hj, hf, hauto, hload, Bool.false_eq_true, ↓reduceIte]
  cases mod <;> simp

theorem check_deps_from_dialog (env : Env) (params : ProgramParameters) (fuel i j : Nat)
    (w w1 : World) (modules : List ShellModule) (m : ShellModule) (deps : List String)
    (dep : String) (mod : Option ShellModule) (hi : modules[i]? = some m)
    (hd : m.dll.hi_module_get_dependencies = some deps) (hj : deps[j]? = some dep)
    (hf : dep_found modules dep = false) (hauto : params.autoload_deps = false)
    (hgui : params.gui_running = true) (hyes : env.gtk_dialog_run w.dialogs = true)
    (hload : module_load env params dep { w with dialogs := w.dialogs + 1 }
      = Outcome.ret (w1, mod)) :
    check_deps_from env params (fuel + 1) i j w modules
      = match check_deps_from env params fuel 0 0 w1 (mod.toList ++ modules) with
        | Outcome.ret (w2, modules2) =>
          check_deps_from env params fuel (i + (modules2.length - modules.length)) (j + 1)
            w2 modules2
        | other => other := by
  rw [check_deps_from]
  simp only [hi, hd, hj, hf, hauto, hgui, hyes, hload, Bool.false_eq_true, ↓reduceIte]
  cases mod <;> simp

theorem module_load_record {env : Env} {params : ProgramParameters} {filename : String}
    {w w1 : World} {mod : Option ShellModule}
    (h : module_load env params filename w = Outcome.ret (w1, mod)) :
    loaded_record env params filename = mod := by
  rcases module_load_eq env params filename w with
    ⟨_, _, hc, _⟩ | ⟨hr, hrec, _⟩ | ⟨m, hr, _, _, hrec⟩
  · rw [hc] at h; cases h
  · rw [hr] at h
    cases h
    exact hrec
  · rw [hr] at h
    cases h
    exact hrec

theorem extends_by_loads_refl (env : Env) (params : ProgramParameters)
    (modules : List ShellModule) : extends_by_loads env params modules modules :=
  ⟨List.Sublist.refl _, fun _ hm => Or.inl hm⟩

theorem extends_by_loads_trans {env : Env} {params : ProgramParameters}
    {l1 l2 l3 : List ShellModule} (h12 : extends_by_loads env params l1 l2)
    (h23 : extends_by_loads env params l2 l3) : extends_by_loads env params l1 l3 := by
  refine ⟨h12.1.trans h23.1, fun m hm => ?_⟩
  rcases h23.2 m hm with h | h
  · exact h12.2 m h
  · exact Or.inr h

theorem extends_by_loads_append {env : Env} {params : ProgramParameters} {filename : String}
    {w w1 : World} {mod : Option ShellModule} (modules : List ShellModule)
    (h : module_load env params filename w = Outcome.ret (w1, mod)) :
    extends_by_loads env params modules (modules ++ mod.toList) := by
  refine ⟨List.sublist_append_left _ _, fun m hm => ?_⟩
  rcases List.mem_append.mp hm with hm | hm
  · exact Or.inl hm
  · refine Or.inr ⟨filename, ?_⟩
    rw [module_load_record h]
    cases mod with
    | none => simp at hm
    | some m1 => simp at hm; rw [hm]

theorem extends_by_loads_prepend {env : Env} {params : ProgramParameters} {filename : String}
    {w w1 : World} {mod : Option ShellModule} (modules : List ShellModule)
    (h : module_load env params filename w = Outcome.ret (w1, mod)) :
    extends_by_loads env params modules (mod.toList ++ modules) := by
  refine ⟨List.sublist_append_right _ _, fun m hm => ?_⟩
  rcases List.mem_append.mp hm with hm | hm
  · refine Or.inr ⟨filename, ?_⟩
    rw [module_load_record h]
    cases mod with
    | none => simp at hm
    | some m1 => simp at hm; rw [hm]
  · exact Or.inl hm

/-- A call of `modules_check_deps` that returns, returns a list in which the
modules of its argument keep their relative order, and every module it adds
comes from `module_load`. -/
theorem check_deps_from_extends (env : Env) (params : ProgramParameters) (fuel : Nat) :
    ∀ (i j : Nat) (w w1 : World) (modules result : List ShellModule),
      check_deps_from env params fuel i j w modules = Outcome.ret (w1, result) →
      extends_by_loads env params modules result := by
  induction fuel with
  | zero =>
    intro i j w w1 modules result h
    simp [check_deps_from] at h
  | succ fuel ih =>
    intro i j w w1 modules result h
    cases hi : modules[i]? with
    | none =>
      rw [check_deps_from_end env params fuel i j w modules hi] at h
      cases h
      exact extends_by_loads_refl _ _ _
    | some m =>
      cases hd : m.dll.hi_module_get_dependencies with
      | none =>
        rw [check_deps_from_no_deps env params fuel i j w modules m hi hd] at h
        exact ih _ _ _ _ _ _ h
      | some deps =>
        cases hj : deps[j]? with
        | none =>
          rw [check_deps_from_deps_end env params fuel i j w modules m deps hi hd hj] at h
          exact ih _ _ _ _ _ _ h
        | some dep =>
          cases hf : dep_found modules dep with
          | true =>
            rw [check_deps_from_found env params fuel i j w modules m deps dep hi hd hj hf] at h
            exact ih _ _ _ _ _ _ h
          | false =>
            cases hauto : params.autoload_deps with
            | true =>
              rcases module_load_returns_or_crashes env params dep w with ⟨w2, mod, hl⟩ | hl
              · rw [check_deps_from_autoload env params fuel i j w w2 modules m deps dep mod
                  hi hd hj hf hauto hl] at h
                cases hr : check_deps_from env params fuel 0 0 w2 (modules ++ mod.toList) with
                | ret r =>
                  obtain ⟨w3, modules3⟩ := r
                  rw [hr] at h
                  exact extends_by_loads_trans
                    (extends_by_loads_trans (extends_by_loads_append modules hl)
                      (ih _ _ _ _ _ _ hr))
                    (ih _ _ _ _ _ _ h)
                | fatal d => rw [hr] at h; cases h
                | crash => rw [hr] at h; cases h
                | out_of_fuel => rw [hr] at h; cases h
              · rw [check_deps_from] at h
                simp [hi, hd, hj, hf, hauto, hl] at h
            | false =>
              cases hgui : params.gui_running with
              | false =>
                rw [check_deps_from] at h
                simp [hi, hd, hj, hf, hauto, hgui] at h
              | true =>
                cases hyes : env.gtk_dialog_run w.dialogs with
                | false =>
                  rw [check_deps_from] at h
                  simp [hi, hd, hj, hf, hauto, hgui, hyes] at h
                | true =>
                  rcases module_load_returns_or_crashes env params dep
                    { w with dialogs := w.dialogs + 1 } with ⟨w2, mod, hl⟩ | hl
                  · rw [check_deps_from_dialog env params fuel i j w w2 modules m deps dep mod
                      hi hd hj hf hauto hgui hyes hl] at h
                    cases hr : check_deps_from env params fuel 0 0 w2 (mod.toList ++ modules) with
                    | ret r =>
                      obtain ⟨w3, modules3⟩ := r
                      rw [hr] at h
                      exact extends_by_loads_trans
                        (extends_by_loads_trans (extends_by_loads_prepend modules hl)
                          (ih _ _ _ _ _ _ hr))
                        (ih _ _ _ _ _ _ h)
                    | fatal d => rw [hr] at h; cases h
                    | crash => rw [hr] at h; cases h
                    | out_of_fuel => rw [hr] at h; cases h
                  · rw [check_deps_from] at h
                    simp [hi, hd, hj, hf, hauto, hgui, hyes, hl] at h

/-! ### C3: modules of equal weight -/

theorem discovered_cons_pos (env : Env) (params : ProgramParameters)
    (module_list : Option (List String)) (filename : String) (names : List String)
    (hc : ((g_strrstr filename ("." ++ env.G_MODULE_SUFFIX)).isSome
        && module_in_module_list filename module_list) = true) :
    discovered env params module_list (filename :: names)
      = (loaded_record env params filename).toList ++ discovered env params module_list names := by
  unfold discovered
  rw [List.filterMap_cons, if_pos hc]
  cases loaded_record env params filename <;> rfl

theorem discovered_cons_neg (env : Env) (params : ProgramParameters)
    (module_list : Option (List String)) (filename : String) (names : List String)
    (hc : ¬ ((g_strrstr filename ("." ++ env.G_MODULE_SUFFIX)).isSome
        && module_in_module_list filename module_list) = true) :
    discovered env params module_list (filename :: names)
      = discovered env params module_list names := by
  unfold discovered
  rw [List.filterMap_cons, if_neg hc]

/-- The directory loop prepends: when it returns, the list holds the modules
it loaded in the reverse of the order of discovery. -/
theorem scan_dir_result (env : Env) (params : ProgramParameters)
    (module_list : Option (List String)) :
    ∀ (names : List String) (w w1 : World) (acc result : List ShellModule),
      scan_dir env params module_list names w acc = Outcome.ret (w1, result) →
      result = (discovered env params module_list names).reverse ++ acc := by
  intro names
  induction names with
  | nil =>
    intro w w1 acc result h
    simp only [scan_dir, Outcome.ret.injEq, Prod.mk.injEq] at h
    simp [discovered, h.2]
  | cons filename names ih =>
    intro w w1 acc result h
    unfold scan_dir at h
    by_cases hc : ((g_strrstr filename ("." ++ env.G_MODULE_SUFFIX)).isSome
        && module_in_module_list filename module_list) = true
    · rw [if_pos hc] at h
      rw [discovered_cons_pos env params module_list filename names hc]
      rcases module_load_returns_or_crashes env params filename w with ⟨w2, mod, hl⟩ | hl
      · have hrec := module_load_record hl
        rw [hl] at h
        rw [hrec]
        cases mod with
        | none =>
          have := ih _ _ _ _ h
          rw [this]
          simp
        | some m =>
          have := ih _ _ _ _ h
          rw [this]
          simp
      · rw [hl] at h
        cases h
    · rw [if_neg hc] at h
      rw [discovered_cons_neg env params module_list filename names hc]
      exact ih _ _ _ _ h

/-- Every module made by `module_load` has the weight its dynamic object
declares, or 0. -/
theorem loaded_record_weight {env : Env} {params : ProgramParameters} {filename : String}
    {m : ShellModule} (h : loaded_record env params filename = some m) :
    env.g_module_open filename = some m.dll
      ∧ m.weight = (match m.dll.hi_module_get_weight with
          | some weight => weight
          | none => 0) := by
  rcases module_load_eq env params filename World.initial with
    ⟨_, _, _, hrec⟩ | ⟨_, hrec, _⟩ | ⟨m1, _, ho, hw, hrec⟩
  · rw [hrec] at h; cases h
  · rw [hrec] at h; cases h
  · rw [hrec] at h
    cases h
    exact ⟨ho, hw⟩

theorem loaded_record_weight_bounded {env : Env} {params : ProgramParameters}
    (hweights : ∀ filename dll weight, env.g_module_open filename = some dll →
      dll.hi_module_get_weight = some weight → -1073741824 ≤ weight ∧ weight < 1073741824)
    {filename : String} {m : ShellModule} (h : loaded_record env params filename = some m) :
    -1073741824 ≤ m.weight ∧ m.weight < 1073741824 := by
  obtain ⟨ho, hw⟩ := loaded_record_weight h
  cases hdw : m.dll.hi_module_get_weight with
  | none =>
    rw [hdw] at hw
    rw [hw]
    constructor <;> decide
  | some weight =>
    rw [hdw] at hw
    rw [hw]
    exact hweights filename m.dll weight ho hdw

theorem mem_discovered {env : Env} {params : ProgramParameters}
    {module_list : Option (List String)} {names : List String} {m : ShellModule}
    (h : m ∈ discovered env params module_list names) :
    ∃ filename, loaded_record env params filename = some m := by
  unfold discovered at h
  rw [List.mem_filterMap] at h
  obtain ⟨filename, _, hf⟩ := h
  split at hf
  · exact ⟨filename, hf⟩
  · cases hf

/-- C3 fails at a directory read in the order `first.so` (weight 5),
`other.so` (weight 1), `second.so` (weight 5): the final list is `other.so`,
`second.so`, `first.so`, so of the two modules of weight 5 the one discovered
first comes last. -/
theorem modules_load_ties_reversed :
    (discovered tie_dir (cli false none) none ["first.so", "other.so", "second.so"]).map
        (fun m => (m.name, m.weight)) = [("first.so", 5), ("other.so", 1), ("second.so", 5)]
      ∧ (modules_load tie_dir (cli false none) 8 (some ["first.so", "other.so", "second.so"])
          none World.initial).value?.map (fun r => r.2.map (fun m => (m.name, m.weight)))
        = some [("other.so", 1), ("second.so", 5), ("first.so", 5)] := by
  decide

/-- A returning `modules_load` sorts a list in which the modules of the scan
keep their (reversed) order; with small declared weights all its weights are
small. -/
theorem modules_load_sorts (env : Env) (params : ProgramParameters)
    (fuel : Nat) (names : List String) (module_list : Option (List String))
    (w w1 : World) (sorted : List ShellModule)
    (hweights : ∀ filename dll weight, env.g_module_open filename = some dll →
      dll.hi_module_get_weight = some weight → -1073741824 ≤ weight ∧ weight < 1073741824)
    (h : modules_load env params fuel (some names) module_list w = Outcome.ret (w1, sorted)) :
    ∃ modules, sorted = g_slist_sort modules module_cmp
      ∧ w1.modules_list = sorted
      ∧ ((discovered env params module_list names).reverse).Sublist modules
      ∧ ∀ m ∈ modules, -1073741824 ≤ m.weight ∧ m.weight < 1073741824 := by
  unfold modules_load at h
  have hscan_eq : modules_load_scan env params (some names) module_list w
      = scan_dir env params module_list names w [] := rfl
  rw [hscan_eq] at h
  cases hs : scan_dir env params module_list names w [] with
  | ret r =>
    obtain ⟨w2, scanned⟩ := r
    rw [hs] at h
    have hscan := scan_dir_result env params module_list names w w2 [] scanned hs
    rw [List.append_nil] at hscan
    cases hc : modules_check_deps env params fuel w2 scanned with
    | ret r2 =>
      obtain ⟨w3, modules⟩ := r2
      simp only [hc] at h
      have hext : extends_by_loads env params scanned modules :=
        check_deps_from_extends env params fuel 0 0 w2 w3 scanned modules hc
      split at h
      · split at h <;> cases h
      · simp only [Outcome.ret.injEq, Prod.mk.injEq] at h
        refine ⟨modules, h.2.symm, ?_, ?_, ?_⟩
        · rw [← h.1, ← h.2]
        · rw [← hscan]
          exact hext.1
        · intro m hm
          rcases hext.2 m hm with hin | ⟨filename, hrec⟩
          · rw [hscan, List.mem_reverse] at hin
            obtain ⟨filename, hrec⟩ := mem_discovered hin
            exact loaded_record_weight_bounded hweights hrec
          · exact loaded_record_weight_bounded hweights hrec
    | fatal d => simp [hc] at h
    | crash => simp [hc] at h
    | out_of_fuel => simp [hc] at h
  | fatal d => rw [hs] at h; cases h
  | crash => rw [hs] at h; cases h
  | out_of_fuel => rw [hs] at h; cases h

/-- C3, amended: when every declared weight is below `2^30` in absolute value
(so that the subtraction in `module_cmp` does not wrap), the list that
`modules_load` returns ascends in weight, and for every weight `k` the modules
of weight `k` that the directory scan loaded appear in it in the reverse of
their order of discovery: of two such modules the one discovered first comes
after the other. -/
theorem modules_load_ties_reverse_discovery (env : Env) (params : ProgramParameters)
    (fuel : Nat) (names : List String) (module_list : Option (List String))
    (w w1 : World) (sorted : List ShellModule)
    (hweights : ∀ filename dll weight, env.g_module_open filename = some dll →
      dll.hi_module_get_weight = some weight → -1073741824 ≤ weight ∧ weight < 1073741824)
    (h : modules_load env params fuel (some names) module_list w = Outcome.ret (w1, sorted))
    (k : Int) :
    sorted.Pairwise (fun a b => a.weight ≤ b.weight)
      ∧ (((discovered env params module_list names).reverse).filter
            (fun m => m.weight = k)).Sublist
          (sorted.filter (fun m => m.weight = k)) := by
  obtain ⟨modules, hsorted, _, hsub, hb⟩ :=
    modules_load_sorts env params fuel names module_list w w1 sorted hweights h
  obtain ⟨_, hpair, hfilter⟩ := g_slist_sort_spec module_cmp ShellModule.weight k modules
    (fun a ha b hb2 => module_cmp_le_iff a b (hb a ha) (hb b hb2))
  rw [hsorted]
  refine ⟨hpair, ?_⟩
  rw [hfilter]
  exact hsub.filter _

/-- The bound on the weights in the amended C3 is needed: at the directory
`f1.so` ... `f6.so` with weights that make `module_cmp` wrap, the modules
`f1.so` and `f4.so` of weight 1500000000 come out in their order of discovery. -/
theorem modules_load_ties_wrapped_weights :
    (modules_load wrap_dir (cli false none) 16
        (some ["f1.so", "f2.so", "f3.so", "f4.so", "f5.so", "f6.so"])
        none World.initial).value?.map (fun r => r.2.map (fun m => m.name))
      = some ["f1.so", "f6.so", "f3.so", "f2.so", "f5.so", "f4.so"] := by
  decide

/-- When every declared weight is below `2^30` in absolute value, the list
that `modules_load` stores in `modules_list` and returns ascends in weight. -/
theorem modules_load_sorted_of_small_weights (env : Env) (params : ProgramParameters)
    (fuel : Nat) (names : List String) (module_list : Option (List String))
    (w w1 : World) (sorted : List ShellModule)
    (hweights : ∀ filename dll weight, env.g_module_open filename = some dll →
      dll.hi_module_get_weight = some weight → -1073741824 ≤ weight ∧ weight < 1073741824)
    (h : modules_load env params fuel (some names) module_list w = Outcome.ret (w1, sorted)) :
    modules_get_list w1 = sorted ∧ sorted.Pairwise (fun a b => a.weight ≤ b.weight) := by
  obtain ⟨modules, hsorted, hlist, _, hb⟩ :=
    modules_load_sorts env params fuel names module_list w w1 sorted hweights h
  obtain ⟨_, hpair, _⟩ := g_slist_sort_spec module_cmp ShellModule.weight 0 modules
    (fun a ha b hb2 => module_cmp_le_iff a b (hb a ha) (hb b hb2))
  rw [hsorted]
  exact ⟨by rw [← hsorted]; exact hlist, hpair⟩

theorem plugin_dir_open {files : List (String × GModule)} {filename : String} {dll : GModule}
    (h : (plugin_dir files).g_module_open filename = some dll) : (filename, dll) ∈ files := by
  simp only [plugin_dir] at h
  cases hp : files.find? (fun p => p.1 == filename) with
  | none => rw [hp] at h; cases h
  | some p =>
    rw [hp] at h
    simp only [Option.map_some', Option.some.injEq] at h
    subst h
    have hmem := List.mem_of_find?_eq_some hp
    have hkey := List.find?_some hp
    simp only [beq_iff_eq] at hkey
    rw [← hkey]
    exact hmem

/-- C3, amended, at the directory `first.so`, `other.so`, `second.so` and the
weight 5. -/
theorem modules_load_ties_reverse_discovery_witness :
    (g_slist_sort [record_of (plugin "second.so" (some 5) none none),
        record_of (plugin "other.so" (some 1) none none),
        record_of (plugin "first.so" (some 5) none none)] module_cmp).Pairwise
        (fun a b => a.weight ≤ b.weight)
      ∧ (((discovered tie_dir (cli false none) none
            ["first.so", "other.so", "second.so"]).reverse).filter
            (fun m => m.weight = 5)).Sublist
          ((g_slist_sort [record_of (plugin "second.so" (some 5) none none),
              record_of (plugin "other.so" (some 1) none none),
              record_of (plugin "first.so" (some 5) none none)] module_cmp).filter
            (fun m => m.weight = 5)) :=
  modules_load_ties_reverse_discovery tie_dir (cli false none) 8
    ["first.so", "other.so", "second.so"] none World.initial
    { World.initial with
      module_methods := some []
      modules_list := g_slist_sort [record_of (plugin "second.so" (some 5) none none),
        record_of (plugin "other.so" (some 1) none none),
        record_of (plugin "first.so" (some 5) none none)] module_cmp
      load_calls := ["first.so", "other.so", "second.so"] }
    (g_slist_sort [record_of (plugin "second.so" (some 5) none none),
        record_of (plugin "other.so" (some 1) none none),
        record_of (plugin "first.so" (some 5) none none)] module_cmp)
    (by
      intro filename dll weight ho hw
      have hmem := plugin_dir_open ho
      simp only [List.mem_cons, Prod.mk.injEq, List.mem_singleton, List.not_mem_nil,
        or_false] at hmem
      rcases hmem with ⟨_, rfl⟩ | ⟨_, rfl⟩ | ⟨_, rfl⟩ <;>
        · simp only [plugin, Option.some.injEq] at hw
          subst hw
          constructor <;> decide)
    (by decide) 5

/-! ### C5: a candidate set that holds all its dependencies -/

theorem walk_rem_succ (modules : List ShellModule) (i : Nat) :
    walk_rem modules (i + 1) 0 = walk_cost (modules.drop (i + 1)) := by
  unfold walk_rem
  cases h : modules[i + 1]? with
  | none =>
    have : modules.drop (i + 1) = [] := by
      rw [List.drop_eq_nil_iff]
      exact List.getElem?_eq_none_iff.mp h
    rw [this]
    rfl
  | some m =>
    have hlt : i + 1 < modules.length := by
      by_contra hcon
      rw [List.getElem?_eq_none_iff.mpr (not_lt.mp hcon)] at h
      cases h
    have hm : modules[i + 1] = m := by
      rw [List.getElem?_eq_getElem hlt] at h
      exact Option.some.inj h
    have : modules.drop (i + 1) = m :: modules.drop (i + 1 + 1) := by
      rw [← hm]
      exact List.drop_eq_getElem_cons hlt
    rw [this]
    simp only [walk_cost]
    omega

theorem walk_rem_zero_le (modules : List ShellModule) :
    walk_rem modules 0 0 ≤ walk_cost modules := by
  cases modules with
  | nil => simp [walk_rem]
  | cons m l => simp [walk_rem, walk_cost]

theorem mem_of_getElem? {α : Type} {modules : List α} {i : Nat} {m : α}
    (h : modules[i]? = some m) : m ∈ modules := by
  rw [List.getElem?_eq_some_iff] at h
  obtain ⟨hlt, rfl⟩ := h
  exact List.getElem_mem hlt

/-- On a list in which every dependency is found, the walk of
`modules_check_deps` changes nothing and ends within `walk_rem` steps. -/
theorem check_deps_from_closed (env : Env) (params : ProgramParameters)
    (modules : List ShellModule)
    (hclosed : ∀ m ∈ modules, ∀ deps, m.dll.hi_module_get_dependencies = some deps →
      ∀ d ∈ deps, dep_found modules d = true) :
    ∀ (fuel i j : Nat) (w : World), walk_rem modules i j < fuel →
      check_deps_from env params fuel i j w modules = Outcome.ret (w, modules) := by
  intro fuel
  induction fuel with
  | zero => intro i j w h; omega
  | succ fuel ih =>
    intro i j w h
    cases hi : modules[i]? with
    | none => exact check_deps_from_end env params fuel i j w modules hi
    | some m =>
      have hrem : walk_rem modules i j
          = (deps_length m - j) + 1 + walk_rem modules (i + 1) 0 := by
        rw [walk_rem_succ]
        simp only [walk_rem, hi]
      cases hd : m.dll.hi_module_get_dependencies with
      | none =>
        rw [check_deps_from_no_deps env params fuel i j w modules m hi hd]
        exact ih _ _ _ (by omega)
      | some deps =>
        cases hj : deps[j]? with
        | none =>
          rw [check_deps_from_deps_end env params fuel i j w modules m deps hi hd hj]
          exact ih _ _ _ (by omega)
        | some dep =>
          have hjlt : j < deps.length := by
            by_contra hcon
            rw [List.getElem?_eq_none_iff.mpr (not_lt.mp hcon)] at hj
            cases hj
          have hmem : dep ∈ deps := mem_of_getElem? hj
          have hf := hclosed m (mem_of_getElem? hi) deps hd dep hmem
          rw [check_deps_from_found env params fuel i j w modules m deps dep hi hd hj hf]
          refine ih _ _ _ ?_
          have hlen : deps_length m = deps.length := by simp [deps_length, hd]
          have hrem2 : walk_rem modules i (j + 1)
              = (deps_length m - (j + 1)) + 1 + walk_rem modules (i + 1) 0 := by
            rw [walk_rem_succ]
            simp only [walk_rem, hi]
          omega

theorem deps_closed_found {modules : List ShellModule} (h : deps_closed modules) :
    ∀ m ∈ modules, ∀ deps, m.dll.hi_module_get_dependencies = some deps →
      ∀ d ∈ deps, dep_found modules d = true :=
  fun m hm deps hd d hdm => (dep_found_iff modules d).mpr (h m hm deps hd d hdm)

/-- C5: when every declared dependency of every candidate is the base file
name of a candidate, `modules_check_deps` (given the steps the two loops need)
returns the candidate list itself and leaves the state as it was: no call of
`module_load`, no dialog, registry untouched.  This holds with and without
autoload or GUI. -/
theorem modules_check_deps_all_present (env : Env) (params : ProgramParameters)
    (w : World) (modules : List ShellModule) (fuel : Nat)
    (hpresent : deps_closed modules) (hfuel : walk_cost modules < fuel) :
    modules_check_deps env params fuel w modules = Outcome.ret (w, modules) :=
  check_deps_from_closed env params modules (deps_closed_found hpresent) fuel 0 0 w
    (lt_of_le_of_lt (walk_rem_zero_le modules) hfuel)

/-- C5 at the candidates `a.so`, `b.so`, `c.so` of the chain. -/
theorem modules_check_deps_all_present_witness :
    modules_check_deps chain_dir (cli false none) 6 World.initial
        [record_of (plugin "a.so" none (some ["b.so"]) none),
         record_of (plugin "b.so" none (some ["c.so"]) none),
         record_of (plugin "c.so" none none none)]
      = Outcome.ret (World.initial,
        [record_of (plugin "a.so" none (some ["b.so"]) none),
         record_of (plugin "b.so" none (some ["c.so"]) none),
         record_of (plugin "c.so" none none none)]) :=
  modules_check_deps_all_present chain_dir (cli false none) World.initial _ 6
    (by
      intro m hm deps hd d hdm
      simp only [List.mem_cons, List.mem_singleton, List.not_mem_nil, or_false] at hm
      rcases hm with rfl | rfl | rfl
      · simp only [record_of, plugin, Option.some.injEq] at hd
        subst hd
        simp only [List.mem_singleton] at hdm
        subst hdm
        exact ⟨record_of (plugin "b.so" none (some ["c.so"]) none), by simp, rfl⟩
      · simp only [record_of, plugin, Option.some.injEq] at hd
        subst hd
        simp only [List.mem_singleton] at hdm
        subst hdm
        exact ⟨record_of (plugin "c.so" none none none), by simp, rfl⟩
      · simp [record_of, plugin] at hd)
    (by decide)

/-! ### C4: the result of the dependency pass with autoload -/

theorem getElem?_of_prefix {α : Type} {l r : List α} {k : Nat} {a : α}
    (hp : l <+: r) (h : l[k]? = some a) : r[k]? = some a := by
  obtain ⟨t, rfl⟩ := hp
  have hlt : k < l.length := by
    by_contra hcon
    rw [List.getElem?_eq_none_iff.mpr (not_lt.mp hcon)] at h
    cases h
  rw [List.getElem?_append_left hlt]
  exact h

theorem dep_found_of_prefix {l r : List ShellModule} {dep : String}
    (hp : l <+: r) (h : dep_found l dep = true) : dep_found r dep = true := by
  obtain ⟨t, rfl⟩ := hp
  rw [dep_found_append, h]
  rfl

theorem closed_from_zero {modules : List ShellModule} (h : closed_from modules 0 0)
    (i j : Nat) : closed_from modules i j := by
  intro k m deps n dep hk hd hn _
  refine h k m deps n dep hk hd hn ?_
  cases k with
  | zero => exact Or.inr ⟨rfl, Nat.zero_le _⟩
  | succ k => exact Or.inl (Nat.succ_pos _)

theorem deps_closed_of_closed_from {modules : List ShellModule}
    (h : closed_from modules 0 0) : deps_closed modules := by
  intro m hm deps hd d hdm
  obtain ⟨k, hk, hkm⟩ := List.mem_iff_getElem.mp hm
  obtain ⟨n, hn, hnd⟩ := List.mem_iff_getElem.mp hdm
  have hk2 : modules[k]? = some m := by rw [List.getElem?_eq_getElem hk, hkm]
  have hn2 : deps[n]? = some d := by rw [List.getElem?_eq_getElem hn, hnd]
  refine (dep_found_iff modules d).mp (h k m deps n d hk2 hd hn2 ?_)
  cases k with
  | zero => exact Or.inr ⟨rfl, Nat.zero_le _⟩
  | succ k => exact Or.inl (Nat.succ_pos _)

/-- With autoload, a walk of `modules_check_deps` that returns has appended to
its list, and from its start position on every dependency is found in the
result. -/
theorem check_deps_from_autoload_closed (env : Env) (params : ProgramParameters)
    (hauto : params.autoload_deps = true) (fuel : Nat) :
    ∀ (i j : Nat) (w w1 : World) (modules result : List ShellModule),
      check_deps_from env params fuel i j w modules = Outcome.ret (w1, result) →
      modules <+: result ∧ closed_from result i j := by
  induction fuel with
  | zero =>
    intro i j w w1 modules result h
    simp [check_deps_from] at h
  | succ fuel ih =>
    intro i j w w1 modules result h
    cases hi : modules[i]? with
    | none =>
      rw [check_deps_from_end env params fuel i j w modules hi] at h
      cases h
      refine ⟨List.prefix_refl _, ?_⟩
      intro k m deps n dep hk hd hn hpos
      have hlen : modules.length ≤ i := List.getElem?_eq_none_iff.mp hi
      have hklt : k < modules.length := by
        by_contra hcon
        rw [List.getElem?_eq_none_iff.mpr (not_lt.mp hcon)] at hk
        cases hk
      omega
    | some m =>
      have hnext : ∀ (w2 w3 : World) (l2 : List ShellModule),
          modules <+: l2 →
          check_deps_from env params fuel (i + 1) 0 w2 l2 = Outcome.ret (w3, result) →
          (∀ deps n dep, m.dll.hi_module_get_dependencies = some deps → deps[n]? = some dep →
            j ≤ n → dep_found result dep = true) →
          modules <+: result ∧ closed_from result i j := by
        intro w2 w3 l2 hp hc hmi
        obtain ⟨hp2, hcl⟩ := ih _ _ _ _ _ _ hc
        refine ⟨hp.trans hp2, ?_⟩
        intro k m1 deps n dep hk hd hn hpos
        rcases hpos with hlt | ⟨rfl, hjn⟩
        · refine hcl k m1 deps n dep hk hd hn ?_
          by_cases hk1 : k = i + 1
          · exact Or.inr ⟨hk1, Nat.zero_le _⟩
          · exact Or.inl (by omega)
        · have : result[k]? = some m := getElem?_of_prefix (hp.trans hp2) hi
          rw [this] at hk
          cases hk
          exact hmi deps n dep hd hn hjn
      cases hd : m.dll.hi_module_get_dependencies with
      | none =>
        rw [check_deps_from_no_deps env params fuel i j w modules m hi hd] at h
        exact hnext w w1 modules (List.prefix_refl _) h
          (fun deps n dep hd2 _ _ => by rw [hd] at hd2; cases hd2)
      | some deps =>
        cases hj : deps[j]? with
        | none =>
          rw [check_deps_from_deps_end env params fuel i j w modules m deps hi hd hj] at h
          refine hnext w w1 modules (List.prefix_refl _) h ?_
          intro deps2 n dep hd2 hn hjn
          rw [hd] at hd2
          cases hd2
          have hlen : deps.length ≤ j := List.getElem?_eq_none_iff.mp hj
          rw [List.getElem?_eq_none_iff.mpr (le_trans hlen hjn)] at hn
          cases hn
        | some dep =>
          cases hf : dep_found modules dep with
          | true =>
            rw [check_deps_from_found env params fuel i j w modules m deps dep hi hd hj hf] at h
            obtain ⟨hp, hcl⟩ := ih _ _ _ _ _ _ h
            refine ⟨hp, ?_⟩
            intro k m1 deps1 n dep1 hk hd1 hn hpos
            rcases hpos with hlt | ⟨rfl, hjn⟩
            · exact hcl k m1 deps1 n dep1 hk hd1 hn (Or.inl hlt)
            · by_cases hnj : n = j
              · subst hnj
                have : result[k]? = some m := getElem?_of_prefix hp hi
                rw [this] at hk
                cases hk
                rw [hd] at hd1
                cases hd1
                rw [hj] at hn
                cases hn
                exact dep_found_of_prefix hp hf
              · exact hcl k m1 deps1 n dep1 hk hd1 hn (Or.inr ⟨rfl, by omega⟩)
          | false =>
            rcases module_load_returns_or_crashes env params dep w with ⟨w2, mod, hl⟩ | hl
            · rw [check_deps_from_autoload env params fuel i j w w2 modules m deps dep mod
                hi hd hj hf hauto hl] at h
              cases hr : check_deps_from env params fuel 0 0 w2 (modules ++ mod.toList) with
              | ret r =>
                obtain ⟨w3, modules3⟩ := r
                rw [hr] at h
                dsimp only at h
                obtain ⟨hp3, hcl3⟩ := ih _ _ _ _ _ _ hr
                obtain ⟨hp4, _⟩ := ih _ _ _ _ _ _ h
                have hp : modules <+: modules3 := (List.prefix_append _ _).trans hp3
                refine hnext w3 w1 modules3 hp h ?_
                intro deps2 n dep2 hd2 hn _
                have hk3 : modules3[i]? = some m := getElem?_of_prefix hp hi
                have := closed_from_zero hcl3 i 0 i m deps2 n dep2 hk3 hd2 hn
                  (Or.inr ⟨rfl, Nat.zero_le _⟩)
                exact dep_found_of_prefix hp4 this
              | fatal d => rw [hr] at h; cases h
              | crash => rw [hr] at h; cases h
              | out_of_fuel => rw [hr] at h; cases h
            · rw [check_deps_from] at h
              simp [hi, hd, hj, hf, hauto, hl] at h

/-- C4: with autoload enabled, whenever `modules_check_deps` returns, the
returned set contains every module of the candidate set and is
dependency-closed: every name in the dependency list of a module of the result
is the base file name of a module of the result. -/
theorem modules_check_deps_closed (env : Env) (params : ProgramParameters) (fuel : Nat)
    (w w1 : World) (modules result : List ShellModule)
    (hauto : params.autoload_deps = true)
    (h : modules_check_deps env params fuel w modules = Outcome.ret (w1, result)) :
    (∀ m ∈ modules, m ∈ result) ∧ deps_closed result := by
  obtain ⟨hp, hcl⟩ := check_deps_from_autoload_closed env params hauto fuel 0 0 w w1
    modules result h
  exact ⟨fun m hm => hp.subset hm, deps_closed_of_closed_from hcl⟩

/-- C4 at the chain with the candidate set `a.so`: the result holds `a.so`,
`b.so` and `c.so`. -/
theorem modules_check_deps_closed_witness :
    (∀ m ∈ [record_of (plugin "a.so" none (some ["b.so"]) none)],
        m ∈ [record_of (plugin "a.so" none (some ["b.so"]) none),
             record_of (plugin "b.so" none (some ["c.so"]) none),
             record_of (plugin "c.so" none none none)])
      ∧ deps_closed [record_of (plugin "a.so" none (some ["b.so"]) none),
             record_of (plugin "b.so" none (some ["c.so"]) none),
             record_of (plugin "c.so" none none none)] :=
  modules_check_deps_closed chain_dir (cli true none) 16 World.initial
    { World.initial with module_methods := some [], load_calls := ["b.so", "c.so"] }
    [record_of (plugin "a.so" none (some ["b.so"]) none)]
    [record_of (plugin "a.so" none (some ["b.so"]) none),
     record_of (plugin "b.so" none (some ["c.so"]) none),
     record_of (plugin "c.so" none none none)]
    (by decide) (by decide)

/-! ### C6: every missing dependency is loaded once -/

theorem module_load_of_record {env : Env} {params : ProgramParameters} {filename : String}
    {m : ShellModule} (h : loaded_record env params filename = some m) (w : World) :
    ∃ w1, module_load env params filename w = Outcome.ret (w1, some m)
      ∧ w1.load_calls = w.load_calls ++ [filename] := by
  rcases module_load_eq env params filename w with
    ⟨_, _, _, hrec⟩ | ⟨_, hrec, _⟩ | ⟨m1, hr, _, _, hrec⟩
  · rw [hrec] at h; cases h
  · rw [hrec] at h; cases h
  · rw [hrec] at h
    cases h
    exact ⟨_, hr, (module_load_ret hr).1⟩

theorem loads_inv_length {env : Env} {params : ProgramParameters}
    {candidates added : List ShellModule} {U : List String}
    (hU : ∀ d, missing_dep env params candidates d → d ∈ U)
    (hinv : loads_inv env params candidates added) : added.length ≤ U.length := by
  have hsub : base_names added ⊆ U := by
    intro d hd
    simp only [base_names, List.mem_map] at hd
    obtain ⟨m, hm, rfl⟩ := hd
    exact hU _ (hinv.2 m hm).1
  have := (List.subperm_of_subset hinv.1 hsub).length_le
  simpa [base_names] using this

/-- With autoload, when every missing dependency name is loadable and lies in
the finite list `U`, the walk of `modules_check_deps` returns from every
position, given enough steps; it appends one module per call of `module_load`,
each for a missing dependency name not loaded before. -/
theorem check_deps_from_loads (env : Env) (params : ProgramParameters)
    (hauto : params.autoload_deps = true) (candidates : List ShellModule) (U : List String)
    (hU : ∀ d, missing_dep env params candidates d → d ∈ U ∧ loadable env params d) :
    ∀ (n : Nat) (added : List ShellModule), loads_inv env params candidates added →
      U.length - added.length < n →
      ∀ (r i j : Nat) (w : World), walk_rem (candidates ++ added) i j < r →
      ∃ (N : Nat) (w1 : World) (more : List ShellModule),
        (∀ fuel, N ≤ fuel →
          check_deps_from env params fuel i j w (candidates ++ added)
            = Outcome.ret (w1, candidates ++ added ++ more))
        ∧ loads_inv env params candidates (added ++ more)
        ∧ w1.load_calls = w.load_calls ++ base_names more := by
  intro n
  induction n with
  | zero => intro added _ hn; omega
  | succ n ihn =>
    intro added hinv hn r
    induction r with
    | zero => intro i j w hr; omega
    | succ r ihr =>
      intro i j w hr
      cases hi : (candidates ++ added)[i]? with
      | none =>
        refine ⟨1, w, [], fun fuel hf => ?_, by simpa using hinv, by simp [base_names]⟩
        obtain ⟨f, rfl⟩ : ∃ f, fuel = f + 1 := ⟨fuel - 1, by omega⟩
        rw [check_deps_from_end env params f i j w _ hi, List.append_nil]
      | some m =>
        have hrem : ∀ j1, walk_rem (candidates ++ added) i j1
            = (deps_length m - j1) + 1 + walk_rem (candidates ++ added) (i + 1) 0 := by
          intro j1
          rw [walk_rem_succ]
          simp only [walk_rem, hi]
        have hgo : ∀ i1 j1, walk_rem (candidates ++ added) i1 j1 < r →
            (∀ fuel, check_deps_from env params (fuel + 1) i j w (candidates ++ added)
              = check_deps_from env params fuel i1 j1 w (candidates ++ added)) →
            ∃ (N : Nat) (w1 : World) (more : List ShellModule),
              (∀ fuel, N ≤ fuel →
                check_deps_from env params fuel i j w (candidates ++ added)
                  = Outcome.ret (w1, candidates ++ added ++ more))
              ∧ loads_inv env params candidates (added ++ more)
              ∧ w1.load_calls = w.load_calls ++ base_names more := by
          intro i1 j1 hlt hstep
          obtain ⟨N, w1, more, hrun, hinv1, hcalls⟩ := ihr i1 j1 w hlt
          refine ⟨N + 1, w1, more, fun fuel hf => ?_, hinv1, hcalls⟩
          obtain ⟨f, rfl⟩ : ∃ f, fuel = f + 1 := ⟨fuel - 1, by omega⟩
          rw [hstep f]
          exact hrun f (by omega)
        have hr0 := hrem j
        cases hd : m.dll.hi_module_get_dependencies with
        | none =>
          exact hgo (i + 1) 0 (by omega)
            (fun fuel => check_deps_from_no_deps env params fuel i j w _ m hi hd)
        | some deps =>
          cases hj : deps[j]? with
          | none =>
            exact hgo (i + 1) 0 (by omega)
              (fun fuel => check_deps_from_deps_end env params fuel i j w _ m deps hi hd hj)
          | some dep =>
            have hjlt : j < deps.length := by
              by_contra hcon
              rw [List.getElem?_eq_none_iff.mpr (not_lt.mp hcon)] at hj
              cases hj
            have hlen : deps_length m = deps.length := by simp [deps_length, hd]
            cases hf : dep_found (candidates ++ added) dep with
            | true =>
              have hr1 := hrem (j + 1)
              exact hgo i (j + 1) (by omega)
                (fun fuel => check_deps_from_found env params fuel i j w _ m deps dep hi hd hj hf)
            | false =>
              rw [dep_found_append, Bool.or_eq_false_iff] at hf
              obtain ⟨hf0, hfA⟩ := hf
              have hmiss : missing_dep env params candidates dep := by
                rcases List.mem_append.mp (mem_of_getElem? hi) with hm | hm
                · exact missing_dep.direct m deps dep hm hd (mem_of_getElem? hj) hf0
                · exact missing_dep.step m.dll.base_name m deps dep (hinv.2 m hm).1
                    (hinv.2 m hm).2 hd (mem_of_getElem? hj) hf0
              obtain ⟨_, md, hrec, hname⟩ := hU dep hmiss
              obtain ⟨w1, hl, hcalls1⟩ := module_load_of_record hrec w
              have hnotin : dep ∉ base_names added := by
                intro hin
                simp only [base_names, List.mem_map] at hin
                obtain ⟨m1, hm1, hm1n⟩ := hin
                have := (dep_found_iff added dep).mpr ⟨m1, hm1, hm1n⟩
                rw [hfA] at this
                cases this
              have hinv1 : loads_inv env params candidates (added ++ [md]) := by
                constructor
                · simp only [base_names, List.map_append, List.map_cons, List.map_nil, hname]
                  rw [List.nodup_append]
                  refine ⟨hinv.1, List.nodup_singleton _, ?_⟩
                  intro a ha hb
                  rw [List.mem_singleton] at hb
                  subst hb
                  exact hnotin ha
                · intro m1 hm1
                  rcases List.mem_append.mp hm1 with hm1 | hm1
                  · exact hinv.2 m1 hm1
                  · rw [List.mem_singleton] at hm1
                    subst hm1
                    rw [hname]
                    exact ⟨hmiss, hrec⟩
              have hlen1 := loads_inv_length (fun d hd1 => (hU d hd1).1) hinv1
              rw [List.length_append, List.length_singleton] at hlen1
              obtain ⟨N1, w2, more2, hrun2, hinv2, hcalls2⟩ := ihn (added ++ [md]) hinv1
                (by rw [List.length_append, List.length_singleton]; omega)
                (walk_rem (candidates ++ (added ++ [md])) 0 0 + 1) 0 0 w1 (by omega)
              have hcl := (check_deps_from_autoload_closed env params hauto N1 0 0 w1 w2 _ _
                (hrun2 N1 (le_refl _))).2
              have hcont := check_deps_from_closed env params _
                (deps_closed_found (deps_closed_of_closed_from hcl))
              refine ⟨max N1 (walk_rem (candidates ++ (added ++ [md]) ++ more2) (i + 1) 0 + 1) + 1,
                w2, md :: more2, fun fuel hfuel => ?_, ?_, ?_⟩
              · obtain ⟨f, rfl⟩ : ∃ f, fuel = f + 1 := ⟨fuel - 1, by omega⟩
                have hf1 : N1 ≤ f := by
                  have := le_max_left N1
                    (walk_rem (candidates ++ (added ++ [md]) ++ more2) (i + 1) 0 + 1)
                  omega
                have hf2 : walk_rem (candidates ++ (added ++ [md]) ++ more2) (i + 1) 0 < f := by
                  have := le_max_right N1
                    (walk_rem (candidates ++ (added ++ [md]) ++ more2) (i + 1) 0 + 1)
                  omega
                rw [check_deps_from_autoload env params f i j w w1 _ m deps dep (some md)
                  hi hd hj (by rw [dep_found_append, hf0, hfA]; rfl) hauto hl]
                have hlist : candidates ++ added ++ (some md).toList
                    = candidates ++ (added ++ [md]) := by
                  simp
                rw [hlist, hrun2 f hf1]
                dsimp only
                rw [hcont f (i + 1) 0 w2 hf2]
                simp
              · have : added ++ md :: more2 = added ++ [md] ++ more2 := by simp
                rw [this]
                exact hinv2
              · rw [hcalls2, hcalls1]
                simp [base_names, hname]

theorem missing_dep_not_candidate {env : Env} {params : ProgramParameters}
    {candidates : List ShellModule} {d : String} (h : missing_dep env params candidates d) :
    dep_found candidates d = false := by
  cases h with
  | direct m deps d _ _ _ hf => exact hf
  | step d1 m deps d _ _ _ _ hf => exact hf

theorem missing_dep_loaded {env : Env} {params : ProgramParameters}
    {candidates loaded : List ShellModule}
    (hinv : loads_inv env params candidates loaded)
    (hclosed : deps_closed (candidates ++ loaded)) {d : String}
    (h : missing_dep env params candidates d) : d ∈ base_names loaded := by
  have key : ∀ (m : ShellModule) (deps : List String) (d : String),
      m ∈ candidates ++ loaded → m.dll.hi_module_get_dependencies = some deps → d ∈ deps →
      dep_found candidates d = false → d ∈ base_names loaded := by
    intro m deps d hm hd hdm hf
    obtain ⟨m1, hm1, hname⟩ := hclosed m hm deps hd d hdm
    rcases List.mem_append.mp hm1 with hc | hl
    · have := (dep_found_iff candidates d).mpr ⟨m1, hc, hname⟩
      rw [hf] at this
      cases this
    · simp only [base_names, List.mem_map]
      exact ⟨m1, hl, hname⟩
  induction h with
  | direct m deps d hm hd hdm hf =>
    exact key m deps d (List.mem_append_left _ hm) hd hdm hf
  | step d1 m deps d _ hrec hd hdm hf ih =>
    simp only [base_names, List.mem_map] at ih
    obtain ⟨m1, hm1, hname⟩ := ih
    have hrec1 := (hinv.2 m1 hm1).2
    rw [hname, hrec] at hrec1
    cases hrec1
    exact key m deps d (List.mem_append_right _ hm1) hd hdm hf

/-- C6: with autoload enabled, for a candidate set with distinct base file
names whose missing dependency names are the names of `U` (each listed once)
and are all loadable, `modules_check_deps` returns, given enough steps; it
appends the modules `loaded` to the candidates, it calls `module_load` exactly
once for each missing dependency name and for nothing else, and each such name
is the base file name of exactly one module of the result. -/
theorem modules_check_deps_loads_once (env : Env) (params : ProgramParameters) (w : World)
    (candidates : List ShellModule) (U : List String)
    (hauto : params.autoload_deps = true)
    (hdistinct : (base_names candidates).Nodup)
    (hU : ∀ d, missing_dep env params candidates d ↔ d ∈ U)
    (hnodup : U.Nodup)
    (hload : ∀ d ∈ U, loadable env params d) :
    ∃ (N : Nat) (w1 : World) (loaded : List ShellModule),
      (∀ fuel, N ≤ fuel →
        modules_check_deps env params fuel w candidates
          = Outcome.ret (w1, candidates ++ loaded))
      ∧ w1.load_calls = w.load_calls ++ base_names loaded
      ∧ (base_names loaded).Perm U
      ∧ (∀ d ∈ U, w1.load_calls.count d = w.load_calls.count d + 1)
      ∧ (base_names (candidates ++ loaded)).Nodup
      ∧ (∀ d ∈ U, (base_names (candidates ++ loaded)).count d = 1) := by
  have hinv0 : loads_inv env params candidates [] :=
    ⟨by simp [base_names], fun m hm => by cases hm⟩
  obtain ⟨N, w1, loaded, hrun, hinv, hcalls⟩ :=
    check_deps_from_loads env params hauto candidates U
      (fun d hd => ⟨(hU d).mp hd, hload d ((hU d).mp hd)⟩) (U.length + 1) [] hinv0
      (by simp) (walk_rem (candidates ++ []) 0 0 + 1) 0 0 w (by omega)
  rw [List.append_nil] at hrun
  rw [List.nil_append] at hinv
  have hclosed : deps_closed (candidates ++ loaded) :=
    deps_closed_of_closed_from
      (check_deps_from_autoload_closed env params hauto N 0 0 w w1 _ _ (hrun N (le_refl _))).2
  have hmem : ∀ d, d ∈ base_names loaded ↔ d ∈ U := by
    intro d
    constructor
    · intro hd
      simp only [base_names, List.mem_map] at hd
      obtain ⟨m, hm, rfl⟩ := hd
      exact (hU _).mp (hinv.2 m hm).1
    · intro hd
      exact missing_dep_loaded hinv hclosed ((hU d).mpr hd)
  have hperm : (base_names loaded).Perm U := (List.perm_ext_iff_of_nodup hinv.1 hnodup).mpr hmem
  have hcount : ∀ d ∈ U, (base_names loaded).count d = 1 :=
    fun d hd => List.count_eq_one_of_mem hinv.1 ((hmem d).mpr hd)
  have hall : (base_names (candidates ++ loaded)).Nodup := by
    simp only [base_names, List.map_append]
    rw [List.nodup_append]
    refine ⟨hdistinct, hinv.1, ?_⟩
    intro d hc hl
    have hmiss := (hU d).mpr ((hmem d).mp hl)
    have hnf := missing_dep_not_candidate hmiss
    simp only [List.mem_map] at hc
    obtain ⟨m, hm, hname⟩ := hc
    have := (dep_found_iff candidates d).mpr ⟨m, hm, hname⟩
    rw [hnf] at this
    cases this
  refine ⟨N, w1, loaded, fun fuel hf => hrun fuel hf, hcalls, hperm, ?_, hall, ?_⟩
  · intro d hd
    rw [hcalls, List.count_append, hcount d hd]
  · intro d hd
    have hin : d ∈ base_names (candidates ++ loaded) := by
      simp only [base_names, List.map_append, List.mem_append]
      exact Or.inr ((hmem d).mpr hd)
    exact List.count_eq_one_of_mem hall hin

/-- C6 at the transitive chain `a.so` -> `b.so` -> `c.so` with the candidate
set `a.so`: the missing dependency names are `b.so` and `c.so`. -/
theorem modules_check_deps_loads_once_witness :
    ∃ (N : Nat) (w1 : World) (loaded : List ShellModule),
      (∀ fuel, N ≤ fuel →
        modules_check_deps chain_dir (cli true none) fuel World.initial
            [record_of (plugin "a.so" none (some ["b.so"]) none)]
          = Outcome.ret (w1, [record_of (plugin "a.so" none (some ["b.so"]) none)] ++ loaded))
      ∧ w1.load_calls = World.initial.load_calls ++ base_names loaded
      ∧ (base_names loaded).Perm ["b.so", "c.so"]
      ∧ (∀ d ∈ ["b.so", "c.so"],
          w1.load_calls.count d = World.initial.load_calls.count d + 1)
      ∧ (base_names ([record_of (plugin "a.so" none (some ["b.so"]) none)] ++ loaded)).Nodup
      ∧ (∀ d ∈ ["b.so", "c.so"],
          (base_names ([record_of (plugin "a.so" none (some ["b.so"]) none)] ++ loaded)).count d
            = 1) :=
  modules_check_deps_loads_once chain_dir (cli true none) World.initial
    [record_of (plugin "a.so" none (some ["b.so"]) none)] ["b.so", "c.so"]
    (by decide) (by decide)
    (by
      have hb : loaded_record chain_dir (cli true none) "b.so"
          = some (record_of (plugin "b.so" none (some ["c.so"]) none)) := by decide
      have hc : loaded_record chain_dir (cli true none) "c.so"
          = some (record_of (plugin "c.so" none none none)) := by decide
      have hmb : missing_dep chain_dir (cli true none)
          [record_of (plugin "a.so" none (some ["b.so"]) none)] "b.so" :=
        missing_dep.direct (record_of (plugin "a.so" none (some ["b.so"]) none)) ["b.so"] "b.so"
          (by simp) rfl (by simp) (by decide)
      intro d
      constructor
      · intro h
        induction h with
        | direct m deps d hm hd hdm hf =>
          rw [List.mem_singleton] at hm
          subst hm
          simp only [record_of, plugin, Option.some.injEq] at hd
          subst hd
          rw [List.mem_singleton] at hdm
          subst hdm
          simp
        | step d1 m deps d _ hrec hd hdm hf ih =>
          simp only [List.mem_cons, List.mem_singleton, List.not_mem_nil, or_false] at ih
          rcases ih with rfl | rfl
          · rw [hb] at hrec
            cases hrec
            simp only [record_of, plugin, Option.some.injEq] at hd
            subst hd
            rw [List.mem_singleton] at hdm
            subst hdm
            simp
          · rw [hc] at hrec
            cases hrec
            simp [record_of, plugin] at hd
      · intro h
        simp only [List.mem_cons, List.mem_singleton, List.not_mem_nil, or_false] at h
        rcases h with rfl | rfl
        · exact hmb
        · exact missing_dep.step "b.so" (record_of (plugin "b.so" none (some ["c.so"]) none))
            ["c.so"] "c.so" hmb hb rfl (by simp) (by decide))
    (by decide)
    (by
      intro d h
      simp only [List.mem_cons, List.mem_singleton, List.not_mem_nil, or_false] at h
      rcases h with rfl | rfl
      · exact ⟨record_of (plugin "b.so" none (some ["c.so"]) none), by decide, rfl⟩
      · exact ⟨record_of (plugin "c.so" none none none), by decide, rfl⟩)

/-- The sorted list at the directory `first.so`, `other.so`, `second.so`. -/
theorem modules_load_sorted_of_small_weights_witness :
    modules_get_list
        { World.initial with
          module_methods := some []
          modules_list := g_slist_sort [record_of (plugin "second.so" (some 5) none none),
            record_of (plugin "other.so" (some 1) none none),
            record_of (plugin "first.so" (some 5) none none)] module_cmp
          load_calls := ["first.so", "other.so", "second.so"] }
        = g_slist_sort [record_of (plugin "second.so" (some 5) none none),
            record_of (plugin "other.so" (some 1) none none),
            record_of (plugin "first.so" (some 5) none none)] module_cmp
      ∧ (g_slist_sort [record_of (plugin "second.so" (some 5) none none),
            record_of (plugin "other.so" (some 1) none none),
            record_of (plugin "first.so" (some 5) none none)] module_cmp).Pairwise
          (fun a b => a.weight ≤ b.weight) :=
  modules_load_sorted_of_small_weights tie_dir (cli false none) 8
    ["first.so", "other.so", "second.so"] none World.initial
    { World.initial with
      module_methods := some []
      modules_list := g_slist_sort [record_of (plugin "second.so" (some 5) none none),
        record_of (plugin "other.so" (some 1) none none),
        record_of (plugin "first.so" (some 5) none none)] module_cmp
      load_calls := ["first.so", "other.so", "second.so"] }
    (g_slist_sort [record_of (plugin "second.so" (some 5) none none),
        record_of (plugin "other.so" (some 1) none none),
        record_of (plugin "first.so" (some 5) none none)] module_cmp)
    (by
      intro filename dll weight ho hw
      have hmem := plugin_dir_open ho
      simp only [tie_dir, List.mem_cons, Prod.mk.injEq, List.mem_singleton, List.not_mem_nil,
        or_false] at hmem
      rcases hmem with ⟨_, rfl⟩ | ⟨_, rfl⟩ | ⟨_, rfl⟩ <;>
        · simp only [plugin, Option.some.injEq] at hw
          subst hw
          constructor <;> decide)
    (by decide)

/-! ### The keys of the method registry -/

theorem g_hash_table_insert_keys (t : GHashTable) (key : String) (value : Nat) (k : String) :
    k ∈ (g_hash_table_insert t key value).map Prod.fst ↔ k ∈ t.map Prod.fst ∨ k = key := by
  unfold g_hash_table_insert
  split
  · rename_i hany
    have hmap : (t.map (fun p => if g_str_equal p.1 key = true then (p.1, value) else p)).map
        Prod.fst = t.map Prod.fst := by
      rw [List.map_map]
      refine List.map_congr_left ?_
      intro p _
      simp only [Function.comp]
      split <;> rfl
    rw [hmap]
    constructor
    · exact Or.inl
    · rintro (h | rfl)
      · exact h
      · simp only [List.any_eq_true, g_str_equal, beq_iff_eq] at hany
        obtain ⟨p, hp, rfl⟩ := hany
        exact List.mem_map_of_mem _ hp
  · simp [List.map_append]

theorem register_loop_keys (base_name : String) (methods : List ShellModuleMethod) :
    ∀ (t : GHashTable) (k : String),
      k ∈ (register_loop base_name methods t).map Prod.fst
        ↔ k ∈ t.map Prod.fst ∨ ∃ method ∈ methods, k = method_key base_name method.name := by
  induction methods with
  | nil => intro t k; simp [register_loop]
  | cons method methods ih =>
    intro t k
    simp only [register_loop]
    rw [ih, g_hash_table_insert_keys]
    simp only [method_key, List.mem_cons, exists_eq_or_imp]
    tauto

/-- A key made by `module_register_methods` for a base file name that contains
a dot does not start with that base file name. -/
theorem method_key_no_prefix (base_name method_name : String)
    (hdot : '.' ∈ base_name.toList) :
    g_str_has_prefix (method_key base_name method_name) base_name = false := by
  unfold g_str_has_prefix method_key strend
  rw [Bool.eq_false_iff]
  intro h
  rw [List.isPrefixOf_iff_prefix] at h
  simp only [String.toList, String.data_append] at h hdot
  have hsplit : base_name.data = base_name.data.takeWhile (fun c => c != '.')
      ++ base_name.data.dropWhile (fun c => c != '.') :=
    (List.takeWhile_append_dropWhile _ _).symm
  have hdrop : ∃ rest, base_name.data.dropWhile (fun c => c != '.') = '.' :: rest := by
    generalize base_name.data = l at hdot
    induction l with
    | nil => cases hdot
    | cons c l ih =>
      by_cases hc : c = '.'
      · subst hc
        exact ⟨l, by simp [List.dropWhile]⟩
      · have hin : '.' ∈ l := by
          rcases List.mem_cons.mp hdot with h1 | h1
          · exact absurd h1.symm hc
          · exact h1
        obtain ⟨rest, hrest⟩ := ih hin
        have hne : (c != '.') = true := by simpa using hc
        exact ⟨rest, by rw [List.dropWhile_cons, if_pos hne, hrest]⟩
  obtain ⟨rest, hrest⟩ := hdrop
  rw [hrest] at hsplit
  rw [List.append_assoc] at h
  nth_rewrite 1 [hsplit] at h
  rw [List.prefix_append_right_inj] at h
  obtain ⟨t, ht⟩ := h
  have hhead := congrArg List.head? ht
  simp at hhead

/-- For every module whose base file name contains a dot, every key that
`module_register_methods` inserts for it is still in the registry after the
removal that `module_unload` performs. -/
theorem unload_keeps_keys_of_dotted_name (module : ShellModule) (w : World)
    (methods : List ShellModuleMethod) (method : ShellModuleMethod)
    (hsym : module.dll.hi_exported_methods = some methods) (hmem : method ∈ methods)
    (hdot : '.' ∈ module.dll.base_name.toList) :
    method_key module.dll.base_name method.name
      ∈ registry_keys (module_unload_methods module (module_register_methods module w)) := by
  unfold module_unload_methods module_register_methods registry_keys
  simp only [hsym, Option.map_some']
  unfold g_hash_table_foreach_remove
  rw [List.mem_map]
  have hin : method_key module.dll.base_name method.name
      ∈ (register_loop module.dll.base_name methods
          (match w.module_methods with
            | none => []
            | some t => t)).map Prod.fst :=
    (register_loop_keys _ _ _ _).mpr (Or.inr ⟨method, hmem, rfl⟩)
  rw [List.mem_map] at hin
  obtain ⟨p, hp, hkey⟩ := hin
  refine ⟨p, ?_, hkey⟩
  rw [List.mem_filter]
  refine ⟨hp, ?_⟩
  simp only [remove_module_methods, hkey, method_key_no_prefix _ _ hdot, Bool.not_false]

/-- The key `cpu::getInfo` of `cpu.so` is kept. -/
theorem unload_keeps_keys_of_dotted_name_witness :
    method_key (record_of cpu_so).dll.base_name "getInfo"
      ∈ registry_keys (module_unload_methods (record_of cpu_so)
          (module_register_methods (record_of cpu_so) World.initial)) :=
  unload_keeps_keys_of_dotted_name (record_of cpu_so) World.initial
    [{ name := "getInfo", function := 7 }] { name := "getInfo", function := 7 }
    rfl (by simp) (by decide)

/-- After the removal that `module_unload` performs, no key of the registry
starts with the base file name of the module. -/
theorem unload_removes_prefixed_keys (module : ShellModule) (w : World) (k : String)
    (hk : k ∈ registry_keys (module_unload_methods module w)) :
    g_str_has_prefix k module.dll.base_name = false := by
  unfold module_unload_methods registry_keys at hk
  cases hw : w.module_methods with
  | none => simp [hw] at hk
  | some t =>
    simp only [hw, Option.map_some', g_hash_table_foreach_remove, List.mem_map,
      List.mem_filter, remove_module_methods] at hk
    obtain ⟨p, ⟨_, hp⟩, rfl⟩ := hk
    simpa using hp

/-- The key `cpu::getInfo` that survives the unload of `cpu.so` does not start
with `cpu.so`. -/
theorem unload_removes_prefixed_keys_witness :
    g_str_has_prefix "cpu::getInfo" (record_of cpu_so).dll.base_name = false :=
  unload_removes_prefixed_keys (record_of cpu_so)
    (module_register_methods (record_of cpu_so) World.initial) "cpu::getInfo" (by decide)

/-! ### C16: seconds_to_string -/

/-- Below `2^31` the conversion `%d` prints the number itself. -/
theorem printf_d_small (x : Nat) (h : x < 2147483648) : printf_d x = toString x := by
  unfold printf_d
  rw [if_pos h]

theorem printf_d_counted (n : Nat) (unit text : String) (hn : n < 2147483648)
    (ht : " " ++ unit = text) : printf_d n ++ text ++ plural n = counted n unit := by
  subst ht
  rw [printf_d_small n hn]
  unfold counted plural
  rw [← String.append_assoc]

/-- C16: for every unsigned 32-bit value `seconds`, with `d = seconds / 86400`,
`h = (seconds / 3600) mod 24` and `m = (seconds / 60) mod 60`, the three
numbers account for `seconds` up to the dropped seconds, and
`seconds_to_string` returns the text of the specification: the minute form
when `d = 0` and `h = 0`, the hour form when `d = 0` and `h >= 1`, the day form
otherwise, each unit word with "s" exactly when its number is greater than 1. -/
theorem seconds_to_string_eq_spec (seconds : Nat) (hrange : seconds < 4294967296) :
    seconds / 86400 * 86400 + seconds / 3600 % 24 * 3600 + seconds / 60 % 60 * 60 ≤ seconds
      ∧ seconds < seconds / 86400 * 86400 + seconds / 3600 % 24 * 3600
          + seconds / 60 % 60 * 60 + 60
      ∧ seconds_to_string seconds = seconds_to_string_spec seconds
      ∧ (seconds / 86400 = 0 → seconds / 3600 % 24 = 0 →
          seconds_to_string seconds = counted (seconds / 60 % 60) "minute")
      ∧ (seconds / 86400 = 0 → 1 ≤ seconds / 3600 % 24 →
          seconds_to_string seconds
            = counted (seconds / 3600 % 24) "hour" ++ ", " ++ counted (seconds / 60 % 60) "minute")
      ∧ (1 ≤ seconds / 86400 →
          seconds_to_string seconds
            = counted (seconds / 86400) "day" ++ ", " ++ counted (seconds / 3600 % 24) "hour"
                ++ " and " ++ counted (seconds / 60 % 60) "minute") := by
  have h1 : seconds / 60 / 60 = seconds / 3600 := by omega
  have h2 : seconds / 3600 / 24 = seconds / 86400 := by omega
  have hm : seconds / 60 % 60 < 2147483648 := by omega
  have hh : seconds / 3600 % 24 < 2147483648 := by omega
  have hd : seconds / 86400 < 2147483648 := by omega
  have hmin : printf_d (seconds / 60 % 60) ++ " minute" ++ plural (seconds / 60 % 60)
      = counted (seconds / 60 % 60) "minute" := by
    exact printf_d_counted _ "minute" " minute" hm (by decide)
  have hhour : printf_d (seconds / 3600 % 24) ++ " hour" ++ plural (seconds / 3600 % 24)
      = counted (seconds / 3600 % 24) "hour" := by
    exact printf_d_counted _ "hour" " hour" hh (by decide)
  have hday : printf_d (seconds / 86400) ++ " day" ++ plural (seconds / 86400)
      = counted (seconds / 86400) "day" := by
    exact printf_d_counted _ "day" " day" hd (by decide)
  have hcode : seconds_to_string seconds
      = if seconds / 86400 < 1 then
          if seconds / 3600 % 24 < 1 then counted (seconds / 60 % 60) "minute"
          else counted (seconds / 3600 % 24) "hour" ++ ", " ++ counted (seconds / 60 % 60) "minute"
        else counted (seconds / 86400) "day" ++ ", " ++ counted (seconds / 3600 % 24) "hour"
          ++ " and " ++ counted (seconds / 60 % 60) "minute" := by
    unfold seconds_to_string
    simp only [h1, h2]
    rw [← hmin, ← hhour, ← hday]
    simp only [String.append_assoc]
  refine ⟨by omega, by omega, ?_, ?_, ?_, ?_⟩
  · rw [hcode]
    unfold seconds_to_string_spec
    by_cases hd0 : seconds / 86400 = 0
    · by_cases hh0 : seconds / 3600 % 24 = 0
      · simp [hd0, hh0]
      · simp [hd0, hh0]
    · have : ¬ seconds / 86400 < 1 := by omega
      simp [hd0, this]
  · intro hd0 hh0
    rw [hcode]
    simp [hd0, hh0]
  · intro hd0 hh1
    rw [hcode]
    have : ¬ seconds / 3600 % 24 < 1 := by omega
    simp [hd0, this]
  · intro hd1
    rw [hcode]
    have : ¬ seconds / 86400 < 1 := by omega
    simp [this]

/-- C16 at 90061 seconds, one day, one hour, one minute and one second. -/
theorem seconds_to_string_eq_spec_witness :
    90061 / 86400 * 86400 + 90061 / 3600 % 24 * 3600 + 90061 / 60 % 60 * 60 ≤ 90061
      ∧ 90061 < 90061 / 86400 * 86400 + 90061 / 3600 % 24 * 3600 + 90061 / 60 % 60 * 60 + 60
      ∧ seconds_to_string 90061 = seconds_to_string_spec 90061
      ∧ (90061 / 86400 = 0 → 90061 / 3600 % 24 = 0 →
          seconds_to_string 90061 = counted (90061 / 60 % 60) "minute")
      ∧ (90061 / 86400 = 0 → 1 ≤ 90061 / 3600 % 24 →
          seconds_to_string 90061
            = counted (90061 / 3600 % 24) "hour" ++ ", " ++ counted (90061 / 60 % 60) "minute")
      ∧ (1 ≤ 90061 / 86400 →
          seconds_to_string 90061
            = counted (90061 / 86400) "day" ++ ", " ++ counted (90061 / 3600 % 24) "hour"
                ++ " and " ++ counted (90061 / 60 % 60) "minute") :=
  seconds_to_string_eq_spec 90061 (by decide)

/-! ### C14: calling a method that is not registered -/

theorem g_hash_table_lookup_none (t : GHashTable) (key : String)
    (h : key ∉ t.map Prod.fst) : g_hash_table_lookup t key = none := by
  unfold g_hash_table_lookup
  rw [Option.map_eq_none', List.find?_eq_none]
  intro p hp hkey
  simp only [g_str_equal, beq_iff_eq] at hkey
  exact h (hkey ▸ List.mem_map_of_mem Prod.fst hp)

/-- C14: for every key that is not in the method registry, also when the
registry was never created, `module_call_method` and
`module_call_method_param` return `NULL`, invoke no function and leave the
state, the registry included, as it was.  Both functions are total, so the
calls never fail. -/
theorem module_call_method_missing_key (invoke : Nat → Option String → Option String)
    (key value : String) (w : World) (hkey : key ∉ registry_keys w) :
    (module_call_method invoke key w).result = none
      ∧ (module_call_method invoke key w).invoked = []
      ∧ (module_call_method invoke key w).world = w
      ∧ (module_call_method_param invoke key value w).result = none
      ∧ (module_call_method_param invoke key value w).invoked = []
      ∧ (module_call_method_param invoke key value w).world = w := by
  unfold module_call_method module_call_method_param
  cases hw : w.module_methods with
  | none => exact ⟨rfl, rfl, rfl, rfl, rfl, rfl⟩
  | some t =>
    have hnone : g_hash_table_lookup t key = none := by
      apply g_hash_table_lookup_none
      simpa [registry_keys, hw] using hkey
    simp only [hnone, and_self]

/-- C14 at the key `mem::getInfo` with a registry that holds `cpu::getInfo`. -/
theorem module_call_method_missing_key_witness :
    (module_call_method (fun _ _ => some "text") "mem::getInfo"
        (module_register_methods (record_of cpu_so) World.initial)).result = none
      ∧ (module_call_method (fun _ _ => some "text") "mem::getInfo"
        (module_register_methods (record_of cpu_so) World.initial)).invoked = []
      ∧ (module_call_method (fun _ _ => some "text") "mem::getInfo"
        (module_register_methods (record_of cpu_so) World.initial)).world
          = module_register_methods (record_of cpu_so) World.initial
      ∧ (module_call_method_param (fun _ _ => some "text") "mem::getInfo" "x"
        (module_register_methods (record_of cpu_so) World.initial)).result = none
      ∧ (module_call_method_param (fun _ _ => some "text") "mem::getInfo" "x"
        (module_register_methods (record_of cpu_so) World.initial)).invoked = []
      ∧ (module_call_method_param (fun _ _ => some "text") "mem::getInfo" "x"
        (module_register_methods (record_of cpu_so) World.initial)).world
          = module_register_methods (record_of cpu_so) World.initial :=
  module_call_method_missing_key (fun _ _ => some "text") "mem::getInfo" "x"
    (module_register_methods (record_of cpu_so) World.initial) (by decide)

/-- A registered key: the call invokes the function once and returns its
string (the registry of `cpu.so` called through `cpu::getInfo`). -/
theorem module_call_method_registered_key :
    (module_call_method (fun _ _ => some "text") "cpu::getInfo"
        (module_register_methods (record_of cpu_so) World.initial)).result = some "text"
      ∧ (module_call_method (fun _ _ => some "text") "cpu::getInfo"
        (module_register_methods (record_of cpu_so) World.initial)).invoked = [(7, none)] := by
  decide

/-! ### C13: the module list after `module_unload_all` -/

theorem module_unload_fold_modules_list (modules : List ShellModule) (w : World) :
    (modules.foldl (fun w module => module_unload module w) w).modules_list = w.modules_list := by
  induction modules generalizing w with
  | nil => rfl
  | cons m modules ih =>
    rw [List.foldl_cons, ih]
    rfl

/-- C13, evaluated at the state reached by `modules_load` on the directory
`cpu.so`, `mem.so` (the shell holding the returned list, one entry selected):
after `module_unload_all` the shell has no modules and no selected entry, and
`modules_get_list` still returns the two modules that were unloaded. -/
theorem module_unload_all_keeps_modules_list :
    (modules_load spec_dir (autoload_params false (some ["mem.so"])) 8
        (some ["cpu.so", "mem.so"]) (some ["mem.so"]) World.initial).value?.map
      (fun r =>
        ((module_unload_all id
            { tree_modules := r.2, merge_ids := [1, 2],
              selected := some { name := "Summary", icon_file := "summary.png", number := 0 } }
            r.1).1,
         (modules_get_list (module_unload_all id
            { tree_modules := r.2, merge_ids := [1, 2],
              selected := some { name := "Summary", icon_file := "summary.png", number := 0 } }
            r.1).2).map (fun m => m.name)))
      = some ({ tree_modules := [], merge_ids := [], selected := none }, ["mem.so", "cpu.so"]) := by
  decide

/-- What `module_unload_all` does to the lists: the module list, the merge
ids and the selected entry of the shell are cleared, whatever the calls into
the other files do; the static `modules_list` of util.c is left as it was. -/
theorem module_unload_all_lists (collaborators : Shell → Shell) (shell : Shell) (w : World) :
    (module_unload_all collaborators shell w).1.tree_modules = []
      ∧ (module_unload_all collaborators shell w).1.merge_ids = []
      ∧ (module_unload_all collaborators shell w).1.selected = none
      ∧ modules_get_list (module_unload_all collaborators shell w).2 = modules_get_list w := by
  refine ⟨rfl, rfl, rfl, ?_⟩
  unfold module_unload_all modules_get_list
  exact module_unload_fold_modules_list shell.tree_modules w

/-! ### One load that completes the set -/

theorem walk_cost_drop_le (modules : List ShellModule) (n : Nat) :
    walk_cost (modules.drop n) ≤ walk_cost modules := by
  induction modules generalizing n with
  | nil => simp
  | cons m l ih =>
    cases n with
    | zero => simp
    | succ n =>
      rw [List.drop_succ_cons]
      have := ih n
      simp only [walk_cost]
      omega

theorem scan_dir_cons_skip (env : Env) (params : ProgramParameters)
    (module_list : Option (List String)) (filename : String) (names : List String)
    (w : World) (acc : List ShellModule)
    (hc : ((g_strrstr filename ("." ++ env.G_MODULE_SUFFIX)).isSome
        && module_in_module_list filename module_list) = false) :
    scan_dir env params module_list (filename :: names) w acc
      = scan_dir env params module_list names w acc := by
  rw [scan_dir, hc]
  simp

theorem scan_dir_cons_load (env : Env) (params : ProgramParameters)
    (module_list : Option (List String)) (filename : String) (names : List String)
    (w w1 : World) (acc : List ShellModule) (m : ShellModule)
    (hc : ((g_strrstr filename ("." ++ env.G_MODULE_SUFFIX)).isSome
        && module_in_module_list filename module_list) = true)
    (hl : module_load env params filename w = Outcome.ret (w1, some m)) :
    scan_dir env params module_list (filename :: names) w acc
      = scan_dir env params module_list names w1 (m :: acc) := by
  rw [scan_dir, hc, hl]
  simp

/-- With autoload, when the walk meets a dependency that is not in the list,
`module_load` returns a module for it, and the list with that module appended
holds all its dependencies, the call returns that list after one load. -/
theorem check_deps_from_load_closes (env : Env) (params : ProgramParameters)
    (hauto : params.autoload_deps = true) (fuel i j : Nat) (w : World)
    (modules : List ShellModule) (m : ShellModule) (deps : List String) (dep : String)
    (md : ShellModule) (hi : modules[i]? = some m)
    (hd : m.dll.hi_module_get_dependencies = some deps) (hj : deps[j]? = some dep)
    (hf : dep_found modules dep = false)
    (hrec : loaded_record env params dep = some md)
    (hclosed : deps_closed (modules ++ [md]))
    (hfuel : walk_cost (modules ++ [md]) < fuel) :
    ∃ w1, module_load env params dep w = Outcome.ret (w1, some md)
      ∧ w1.load_calls = w.load_calls ++ [dep]
      ∧ check_deps_from env params (fuel + 1) i j w modules
          = Outcome.ret (w1, modules ++ [md]) := by
  obtain ⟨w1, hl, hcalls⟩ := module_load_of_record hrec w
  refine ⟨w1, hl, hcalls, ?_⟩
  have hcont := check_deps_from_closed env params (modules ++ [md]) (deps_closed_found hclosed)
  rw [check_deps_from_autoload env params fuel i j w w1 modules m deps dep (some md)
    hi hd hj hf hauto hl]
  have hlist : modules ++ (some md).toList = modules ++ [md] := rfl
  rw [hlist, hcont fuel 0 0 w1 (lt_of_le_of_lt (walk_rem_zero_le _) hfuel)]
  dsimp only
  refine hcont fuel (i + 1) 0 w1 ?_
  rw [walk_rem_succ]
  exact lt_of_le_of_lt (walk_cost_drop_le _ _) hfuel

/-! ### C15: a cyclic dependency -/

/-- A cycle of two modules: the candidate `A` declares `b`, the module `B`
that `module_load` returns for `b` declares the base file name of `A`.  With
autoload the dependency pass loads `B` once and returns `[A, B]`. -/
theorem check_deps_two_cycle (env : Env) (params : ProgramParameters) (w : World)
    (a b : String) (A B : ShellModule) (hauto : params.autoload_deps = true) (hab : a ≠ b)
    (hAn : A.dll.base_name = a) (hAd : A.dll.hi_module_get_dependencies = some [b])
    (hB : loaded_record env params b = some B) (hBn : B.dll.base_name = b)
    (hBd : B.dll.hi_module_get_dependencies = some [a]) (fuel : Nat) (hfuel : 6 ≤ fuel) :
    ∃ w1, modules_check_deps env params fuel w [A] = Outcome.ret (w1, [A, B])
      ∧ w1.load_calls = w.load_calls ++ [b] := by
  obtain ⟨f, rfl⟩ : ∃ f, fuel = f + 1 := ⟨fuel - 1, by omega⟩
  have hf : dep_found [A] b = false := by
    simp [dep_found, g_str_equal, hAn, hab]
  have hclosed : deps_closed ([A] ++ [B]) := by
    intro m hm deps hd d hdm
    simp only [List.singleton_append, List.mem_cons, List.mem_singleton, List.not_mem_nil,
      or_false] at hm
    rcases hm with rfl | rfl
    · rw [hAd] at hd
      cases hd
      rw [List.mem_singleton] at hdm
      subst hdm
      exact ⟨B, by simp, hBn⟩
    · rw [hBd] at hd
      cases hd
      rw [List.mem_singleton] at hdm
      subst hdm
      exact ⟨A, by simp, hAn⟩
  have hcost : walk_cost ([A] ++ [B]) < f := by
    simp only [List.singleton_append, walk_cost, deps_length, hAd, hBd, List.length_singleton]
    omega
  obtain ⟨w1, _, hcalls, hrun⟩ := check_deps_from_load_closes env params hauto f 0 0 w [A] A [b]
    b B rfl hAd rfl hf hB hclosed hcost
  exact ⟨w1, hrun, hcalls⟩

/-- C15 fails: there is no cyclic configuration of two loadable modules (`A`
depends on `B`, `B` depends on `A`, autoload enabled, candidate set `A`) on
which `modules_check_deps` uses up every bound on its steps. -/
theorem no_cycle_recurses_forever :
    ¬ ∃ (env : Env) (params : ProgramParameters) (w : World) (A B : ShellModule),
        params.autoload_deps = true
          ∧ A.dll.base_name ≠ B.dll.base_name
          ∧ loaded_record env params A.dll.base_name = some A
          ∧ loaded_record env params B.dll.base_name = some B
          ∧ A.dll.hi_module_get_dependencies = some [B.dll.base_name]
          ∧ B.dll.hi_module_get_dependencies = some [A.dll.base_name]
          ∧ ∀ fuel, modules_check_deps env params fuel w [A] = Outcome.out_of_fuel := by
  rintro ⟨env, params, w, A, B, hauto, hab, _, hB, hAd, hBd, hloop⟩
  obtain ⟨w1, hrun, _⟩ := check_deps_two_cycle env params w A.dll.base_name B.dll.base_name
    A B hauto hab rfl hAd hB rfl hBd 6 (le_refl _)
  rw [hloop 6] at hrun
  cases hrun

/-- C15, amended: for every cyclic configuration of two modules (`A` depends
on `B` and `B` depends on `A`, `B` loadable under the name `A` declares,
autoload enabled, candidate set `A`), `modules_check_deps` terminates: it
calls `module_load` once, for `B`, and returns the list `[A, B]`, in which
both dependencies are found by name. -/
theorem modules_check_deps_cycle_terminates (env : Env) (params : ProgramParameters)
    (w : World) (A B : ShellModule) (hauto : params.autoload_deps = true)
    (hab : A.dll.base_name ≠ B.dll.base_name)
    (hB : loaded_record env params B.dll.base_name = some B)
    (hAd : A.dll.hi_module_get_dependencies = some [B.dll.base_name])
    (hBd : B.dll.hi_module_get_dependencies = some [A.dll.base_name])
    (fuel : Nat) (hfuel : 6 ≤ fuel) :
    ∃ w1, modules_check_deps env params fuel w [A] = Outcome.ret (w1, [A, B])
      ∧ w1.load_calls = w.load_calls ++ [B.dll.base_name] :=
  check_deps_two_cycle env params w A.dll.base_name B.dll.base_name A B hauto hab rfl hAd hB
    rfl hBd fuel hfuel

/-- C15, amended, at the cycle `a.so` <-> `b.so` with the candidate `a.so`. -/
theorem modules_check_deps_cycle_terminates_witness :
    ∃ w1, modules_check_deps cycle_dir (autoload_params false none) 6 World.initial
          [record_of (plugin "a.so" none (some ["b.so"]) none)]
        = Outcome.ret (w1, [record_of (plugin "a.so" none (some ["b.so"]) none),
            record_of (plugin "b.so" none (some ["a.so"]) none)])
      ∧ w1.load_calls = World.initial.load_calls
          ++ [(record_of (plugin "b.so" none (some ["a.so"]) none)).dll.base_name] :=
  modules_check_deps_cycle_terminates cycle_dir (autoload_params false none) World.initial
    (record_of (plugin "a.so" none (some ["b.so"]) none))
    (record_of (plugin "b.so" none (some ["a.so"]) none))
    rfl (by decide) (by decide) rfl rfl 6 (le_refl _)

/-! ### C11: the scenario of the specification -/

/-- The records that `module_load` returns in the directory of the scenario. -/
theorem spec_dir_records (gui : Bool) (use_modules : Option (List String)) :
    loaded_record spec_dir (autoload_params gui use_modules) "mem.so"
        = some (record_with_icon gui (plugin "mem.so" (some 5) (some ["cpu.so"]) none) "mem.png")
      ∧ loaded_record spec_dir (autoload_params gui use_modules) "cpu.so"
        = some (record_with_icon gui (plugin "cpu.so" (some 10) none none) "cpu.png") := by
  cases gui <;> exact ⟨rfl, rfl⟩

/-- C11: in the plugin directory with `cpu.so` (weight 10, no dependencies)
and `mem.so` (weight 5, depends on `cpu.so`), read in either order, with the
filter `["mem.so"]` and autoload enabled, with or without GUI and from every
state, `modules_load` returns, given at least five steps for the dependency
pass, exactly the list `[mem.so, cpu.so]` and stores it in `modules_list`; it
calls `module_load` for `mem.so` and then for `cpu.so`. -/
theorem modules_load_spec_scenario (gui : Bool) (names : List String) (w : World) (fuel : Nat)
    (hnames : names = ["cpu.so", "mem.so"] ∨ names = ["mem.so", "cpu.so"])
    (hfuel : 5 ≤ fuel) :
    ∃ w1, modules_load spec_dir (autoload_params gui (some ["mem.so"])) fuel (some names)
          (some ["mem.so"]) w
        = Outcome.ret (w1,
            [record_with_icon gui (plugin "mem.so" (some 5) (some ["cpu.so"]) none) "mem.png",
             record_with_icon gui (plugin "cpu.so" (some 10) none none) "cpu.png"])
      ∧ modules_get_list w1
        = [record_with_icon gui (plugin "mem.so" (some 5) (some ["cpu.so"]) none) "mem.png",
           record_with_icon gui (plugin "cpu.so" (some 10) none none) "cpu.png"]
      ∧ w1.load_calls = w.load_calls ++ ["mem.so", "cpu.so"] := by
  obtain ⟨hmem, hcpu⟩ := spec_dir_records gui (some ["mem.so"])
  obtain ⟨w1, hl1, hcalls1⟩ := module_load_of_record hmem w
  have hskip : ((g_strrstr "cpu.so" ("." ++ spec_dir.G_MODULE_SUFFIX)).isSome
      && module_in_module_list "cpu.so" (some ["mem.so"])) = false := by decide
  have htake : ((g_strrstr "mem.so" ("." ++ spec_dir.G_MODULE_SUFFIX)).isSome
      && module_in_module_list "mem.so" (some ["mem.so"])) = true := by decide
  have hscan : modules_load_scan spec_dir (autoload_params gui (some ["mem.so"])) (some names)
      (some ["mem.so"]) w
      = Outcome.ret (w1,
          [record_with_icon gui (plugin "mem.so" (some 5) (some ["cpu.so"]) none) "mem.png"]) := by
    unfold modules_load_scan
    rcases hnames with rfl | rfl
    · simp only
      rw [scan_dir_cons_skip _ _ _ _ _ _ _ hskip, scan_dir_cons_load _ _ _ _ _ _ _ _ _ htake hl1]
      rfl
    · simp only
      rw [scan_dir_cons_load _ _ _ _ _ _ _ _ _ htake hl1, scan_dir_cons_skip _ _ _ _ _ _ _ hskip]
      rfl
  obtain ⟨f, rfl⟩ : ∃ f, fuel = f + 1 := ⟨fuel - 1, by omega⟩
  have hf : dep_found
      [record_with_icon gui (plugin "mem.so" (some 5) (some ["cpu.so"]) none) "mem.png"]
      "cpu.so" = false := by cases gui <;> decide
  have hclosed : deps_closed
      ([record_with_icon gui (plugin "mem.so" (some 5) (some ["cpu.so"]) none) "mem.png"]
        ++ [record_with_icon gui (plugin "cpu.so" (some 10) none none) "cpu.png"]) := by
    intro m hm deps hd d hdm
    simp only [List.singleton_append, List.mem_cons, List.mem_singleton, List.not_mem_nil,
      or_false] at hm
    rcases hm with rfl | rfl
    · simp only [record_with_icon, record_of, plugin, Option.some.injEq] at hd
      subst hd
      rw [List.mem_singleton] at hdm
      subst hdm
      exact ⟨record_with_icon gui (plugin "cpu.so" (some 10) none none) "cpu.png",
        by simp, rfl⟩
    · simp [record_with_icon, record_of, plugin] at hd
  have hcost : walk_cost
      ([record_with_icon gui (plugin "mem.so" (some 5) (some ["cpu.so"]) none) "mem.png"]
        ++ [record_with_icon gui (plugin "cpu.so" (some 10) none none) "cpu.png"]) < f := by
    have : walk_cost
        ([record_with_icon gui (plugin "mem.so" (some 5) (some ["cpu.so"]) none) "mem.png"]
          ++ [record_with_icon gui (plugin "cpu.so" (some 10) none none) "cpu.png"]) = 3 := rfl
    omega
  obtain ⟨w2, _, hcalls2, hrun⟩ := check_deps_from_load_closes spec_dir
    (autoload_params gui (some ["mem.so"])) rfl f 0 0 w1 _ _ ["cpu.so"] "cpu.so" _
    rfl rfl rfl hf hcpu hclosed hcost
  have hsort : g_slist_sort
      ([record_with_icon gui (plugin "mem.so" (some 5) (some ["cpu.so"]) none) "mem.png"]
        ++ [record_with_icon gui (plugin "cpu.so" (some 10) none none) "cpu.png"]) module_cmp
      = [record_with_icon gui (plugin "mem.so" (some 5) (some ["cpu.so"]) none) "mem.png",
         record_with_icon gui (plugin "cpu.so" (some 10) none none) "cpu.png"] := by
    cases gui <;> decide
  refine ⟨{ w2 with modules_list :=
      [record_with_icon gui (plugin "mem.so" (some 5) (some ["cpu.so"]) none) "mem.png",
       record_with_icon gui (plugin "cpu.so" (some 10) none none) "cpu.png"] }, ?_, rfl, ?_⟩
  · unfold modules_load modules_check_deps
    rw [hscan]
    simp only [hrun, hsort]
    rfl
  · show w2.load_calls = w.load_calls ++ ["mem.so", "cpu.so"]
    rw [hcalls2, hcalls1]
    simp

/-- C11 at program start, the directory read as `cpu.so`, `mem.so`, no GUI. -/
theorem modules_load_spec_scenario_witness :
    ∃ w1, modules_load spec_dir (autoload_params false (some ["mem.so"])) 5
          (some ["cpu.so", "mem.so"]) (some ["mem.so"]) World.initial
        = Outcome.ret (w1,
            [record_with_icon false (plugin "mem.so" (some 5) (some ["cpu.so"]) none) "mem.png",
             record_with_icon false (plugin "cpu.so" (some 10) none none) "cpu.png"])
      ∧ modules_get_list w1
        = [record_with_icon false (plugin "mem.so" (some 5) (some ["cpu.so"]) none) "mem.png",
           record_with_icon false (plugin "cpu.so" (some 10) none none) "cpu.png"]
      ∧ w1.load_calls = World.initial.load_calls ++ ["mem.so", "cpu.so"] :=
  modules_load_spec_scenario false ["cpu.so", "mem.so"] World.initial 5 (Or.inl rfl)
    (le_refl _)

/-! ### C12: a dependency that cannot be obtained -/

theorem unavailable_load (gui : Bool) (autoload : Bool) (w : World) :
    module_load unavailable_dir
        { gui_running := gui, autoload_deps := autoload, use_modules := none,
          path_lib := "/usr/lib/hardinfo" } "cpu.so" w
      = Outcome.ret ({ w with load_calls := w.load_calls ++ ["cpu.so"] }, none) := by
  rcases module_load_eq unavailable_dir
      { gui_running := gui, autoload_deps := autoload, use_modules := none,
        path_lib := "/usr/lib/hardinfo" } "cpu.so" w with
    ⟨_, hn, _, _⟩ | ⟨hr, _, _⟩ | ⟨m, _, ho, _, _⟩
  · have : g_strrstr "cpu.so" ("." ++ unavailable_dir.G_MODULE_SUFFIX) = some 3 := by decide
    rw [this] at hn
    cases hn
  · exact hr
  · have : unavailable_dir.g_module_open "cpu.so" = none := by decide
    rw [this] at ho
    cases ho

/-- C12, evaluated at the candidate `mem.so`, which depends on `cpu.so`, in a
directory without `cpu.so`, with autoload enabled: `module_load` returns
`NULL`, the list stays as it is, and `modules_check_deps` calls itself on the
same list; whatever bound is put on its steps, it uses it up without reaching
`g_error` or returning. -/
theorem modules_check_deps_unavailable_recurses (fuel : Nat) (w : World) :
    modules_check_deps unavailable_dir (autoload_params false none) fuel w
        [record_of (plugin "mem.so" (some 5) (some ["cpu.so"]) none)]
      = Outcome.out_of_fuel := by
  unfold modules_check_deps
  induction fuel generalizing w with
  | zero => rfl
  | succ fuel ih =>
    rw [check_deps_from_autoload unavailable_dir (autoload_params false none) fuel 0 0 w
      { w with load_calls := w.load_calls ++ ["cpu.so"] }
      [record_of (plugin "mem.so" (some 5) (some ["cpu.so"]) none)]
      (record_of (plugin "mem.so" (some 5) (some ["cpu.so"]) none)) ["cpu.so"] "cpu.so" none
      rfl rfl rfl (by decide) rfl (unavailable_load false true w)]
    have hlist : [record_of (plugin "mem.so" (some 5) (some ["cpu.so"]) none)]
        ++ (none : Option ShellModule).toList
        = [record_of (plugin "mem.so" (some 5) (some ["cpu.so"]) none)] := rfl
    rw [hlist, ih]

/-- The same candidate with a running GUI, autoload off and a user who accepts
every dialog: the load fails, the dialog is shown again, and so on without
end. -/
theorem modules_check_deps_unavailable_asks_again (fuel : Nat) (w : World) :
    modules_check_deps unavailable_dir
        { gui_running := true, autoload_deps := false, use_modules := none,
          path_lib := "/usr/lib/hardinfo" } fuel w
        [record_of (plugin "mem.so" (some 5) (some ["cpu.so"]) none)]
      = Outcome.out_of_fuel := by
  unfold modules_check_deps
  induction fuel generalizing w with
  | zero => rfl
  | succ fuel ih =>
    rw [check_deps_from_dialog unavailable_dir _ fuel 0 0 w
      { w with dialogs := w.dialogs + 1, load_calls := w.load_calls ++ ["cpu.so"] }
      [record_of (plugin "mem.so" (some 5) (some ["cpu.so"]) none)]
      (record_of (plugin "mem.so" (some 5) (some ["cpu.so"]) none)) ["cpu.so"] "cpu.so" none
      rfl rfl rfl (by decide) rfl rfl rfl
      (unavailable_load true false { w with dialogs := w.dialogs + 1 })]
    have hlist : (none : Option ShellModule).toList
        ++ [record_of (plugin "mem.so" (some 5) (some ["cpu.so"]) none)]
        = [record_of (plugin "mem.so" (some 5) (some ["cpu.so"]) none)] := rfl
    rw [hlist, ih]

theorem closed_from_end {modules : List ShellModule} {i : Nat} (j : Nat)
    (hi : modules[i]? = none) : closed_from modules i j := by
  intro k m deps n dep hk _ _ hpos
  have hlen : modules.length ≤ i := List.getElem?_eq_none_iff.mp hi
  have hklt : k < modules.length := by
    by_contra hcon
    rw [List.getElem?_eq_none_iff.mpr (not_lt.mp hcon)] at hk
    cases hk
  omega

theorem closed_from_next {modules : List ShellModule} {i j : Nat} {m : ShellModule}
    (hi : modules[i]? = some m)
    (hmi : ∀ deps n dep, m.dll.hi_module_get_dependencies = some deps → deps[n]? = some dep →
      j ≤ n → dep_found modules dep = true)
    (hnext : closed_from modules (i + 1) 0) : closed_from modules i j := by
  intro k m1 deps n dep hk hd hn hpos
  rcases hpos with hlt | ⟨rfl, hjn⟩
  · refine hnext k m1 deps n dep hk hd hn ?_
    by_cases hk1 : k = i + 1
    · exact Or.inr ⟨hk1, Nat.zero_le _⟩
    · exact Or.inl (by omega)
  · rw [hi] at hk
    cases hk
    exact hmi deps n dep hd hn hjn

/-- Without autoload, the walk over a list that lacks a dependency ends at the
first missing one: in `g_error` with the names of the module and of the
dependency when no GUI is running, and in `g_error` after the dialog when the
GUI is running and the user declines. -/
theorem check_deps_from_first_missing (env : Env) (params : ProgramParameters)
    (hauto : params.autoload_deps = false) (modules : List ShellModule) :
    ∀ (fuel i j : Nat) (w : World), walk_rem modules i j < fuel →
      ¬ closed_from modules i j →
      ∃ m deps dep, m ∈ modules ∧ m.dll.hi_module_get_dependencies = some deps ∧ dep ∈ deps
        ∧ dep_found modules dep = false
        ∧ (params.gui_running = false →
            check_deps_from env params fuel i j w modules
              = Outcome.fatal (Diagnostic.module_depends_on m.name dep))
        ∧ (params.gui_running = true → env.gtk_dialog_run w.dialogs = false →
            check_deps_from env params fuel i j w modules
              = Outcome.fatal Diagnostic.cannot_run_without_module) := by
  intro fuel
  induction fuel with
  | zero => intro i j w h; omega
  | succ fuel ih =>
    intro i j w h hopen
    cases hi : modules[i]? with
    | none => exact absurd (closed_from_end j hi) hopen
    | some m =>
      have hrem : ∀ j1, walk_rem modules i j1
          = (deps_length m - j1) + 1 + walk_rem modules (i + 1) 0 := by
        intro j1
        rw [walk_rem_succ]
        simp only [walk_rem, hi]
      have hr0 := hrem j
      cases hd : m.dll.hi_module_get_dependencies with
      | none =>
        have hnext : ¬ closed_from modules (i + 1) 0 := fun hc =>
          hopen (closed_from_next hi (fun deps n dep hd2 _ _ => by rw [hd] at hd2; cases hd2) hc)
        rw [check_deps_from_no_deps env params fuel i j w modules m hi hd]
        exact ih (i + 1) 0 w (by omega) hnext
      | some deps =>
        cases hj : deps[j]? with
        | none =>
          have hnext : ¬ closed_from modules (i + 1) 0 := by
            intro hc
            refine hopen (closed_from_next hi ?_ hc)
            intro deps2 n dep hd2 hn hjn
            rw [hd] at hd2
            cases hd2
            have hlen : deps.length ≤ j := List.getElem?_eq_none_iff.mp hj
            rw [List.getElem?_eq_none_iff.mpr (le_trans hlen hjn)] at hn
            cases hn
          rw [check_deps_from_deps_end env params fuel i j w modules m deps hi hd hj]
          exact ih (i + 1) 0 w (by omega) hnext
        | some dep =>
          have hjlt : j < deps.length := by
            by_contra hcon
            rw [List.getElem?_eq_none_iff.mpr (not_lt.mp hcon)] at hj
            cases hj
          have hlen : deps_length m = deps.length := by simp [deps_length, hd]
          cases hf : dep_found modules dep with
          | true =>
            have hnext : ¬ closed_from modules i (j + 1) := by
              intro hc
              apply hopen
              intro k m1 deps1 n dep1 hk hd1 hn hpos
              rcases hpos with hlt | ⟨rfl, hjn⟩
              · exact hc k m1 deps1 n dep1 hk hd1 hn (Or.inl hlt)
              · by_cases hnj : n = j
                · subst hnj
                  rw [hi] at hk
                  cases hk
                  rw [hd] at hd1
                  cases hd1
                  rw [hj] at hn
                  cases hn
                  exact hf
                · exact hc k m1 deps1 n dep1 hk hd1 hn (Or.inr ⟨rfl, by omega⟩)
            have hr1 := hrem (j + 1)
            rw [check_deps_from_found env params fuel i j w modules m deps dep hi hd hj hf]
            exact ih i (j + 1) w (by omega) hnext
          | false =>
            refine ⟨m, deps, dep, mem_of_getElem? hi, hd, mem_of_getElem? hj, hf, ?_, ?_⟩
            · intro hgui
              rw [check_deps_from]
              simp [hi, hd, hj, hf, hauto, hgui]
            · intro hgui hno
              rw [check_deps_from]
              simp [hi, hd, hj, hf, hauto, hgui, hno]

/-- Without autoload and without GUI, a candidate set that lacks a declared
dependency makes `modules_check_deps` end in `g_error` with the diagnostic
that names a module and a dependency of it that is not in the set. -/
theorem modules_check_deps_headless_fatal (env : Env) (params : ProgramParameters)
    (w : World) (modules : List ShellModule) (fuel : Nat)
    (hauto : params.autoload_deps = false) (hgui : params.gui_running = false)
    (hmissing : ¬ deps_closed modules) (hfuel : walk_cost modules < fuel) :
    ∃ m deps dep, m ∈ modules ∧ m.dll.hi_module_get_dependencies = some deps ∧ dep ∈ deps
      ∧ dep_found modules dep = false
      ∧ modules_check_deps env params fuel w modules
          = Outcome.fatal (Diagnostic.module_depends_on m.name dep) := by
  obtain ⟨m, deps, dep, hm, hd, hdm, hf, hfatal, _⟩ :=
    check_deps_from_first_missing env params hauto modules fuel 0 0 w
      (lt_of_le_of_lt (walk_rem_zero_le modules) hfuel)
      (fun hc => hmissing (deps_closed_of_closed_from hc))
  exact ⟨m, deps, dep, hm, hd, hdm, hf, hfatal hgui⟩

/-- The candidate `mem.so` without `cpu.so`, no autoload, no GUI. -/
theorem modules_check_deps_headless_fatal_witness :
    ∃ m deps dep, m ∈ [record_of (plugin "mem.so" (some 5) (some ["cpu.so"]) none)]
      ∧ m.dll.hi_module_get_dependencies = some deps ∧ dep ∈ deps
      ∧ dep_found [record_of (plugin "mem.so" (some 5) (some ["cpu.so"]) none)] dep = false
      ∧ modules_check_deps unavailable_dir (cli false none) 3 World.initial
            [record_of (plugin "mem.so" (some 5) (some ["cpu.so"]) none)]
          = Outcome.fatal (Diagnostic.module_depends_on m.name dep) :=
  modules_check_deps_headless_fatal unavailable_dir (cli false none) World.initial
    [record_of (plugin "mem.so" (some 5) (some ["cpu.so"]) none)] 3 rfl rfl
    (by
      intro hc
      obtain ⟨m1, hm1, hname⟩ := hc (record_of (plugin "mem.so" (some 5) (some ["cpu.so"]) none))
        (by simp) ["cpu.so"] rfl "cpu.so" (by simp)
      rw [List.mem_singleton] at hm1
      subst hm1
      revert hname
      decide)
    (by decide)

/-- Without autoload and with a running GUI, when the user declines the
dialog for the first missing dependency, `modules_check_deps` ends in
`g_error`. -/
theorem modules_check_deps_declined_fatal (env : Env) (params : ProgramParameters)
    (w : World) (modules : List ShellModule) (fuel : Nat)
    (hauto : params.autoload_deps = false) (hgui : params.gui_running = true)
    (hno : env.gtk_dialog_run w.dialogs = false)
    (hmissing : ¬ deps_closed modules) (hfuel : walk_cost modules < fuel) :
    modules_check_deps env params fuel w modules
      = Outcome.fatal Diagnostic.cannot_run_without_module := by
  obtain ⟨_, _, _, _, _, _, _, _, hfatal⟩ :=
    check_deps_from_first_missing env params hauto modules fuel 0 0 w
      (lt_of_le_of_lt (walk_rem_zero_le modules) hfuel)
      (fun hc => hmissing (deps_closed_of_closed_from hc))
  exact hfatal hgui hno

/-- The candidate `mem.so` without `cpu.so`, GUI running, the dialog declined. -/
theorem modules_check_deps_declined_fatal_witness :
    modules_check_deps declining_dir
        { gui_running := true, autoload_deps := false, use_modules := none,
          path_lib := "/usr/lib/hardinfo" } 3 World.initial
        [record_of (plugin "mem.so" (some 5) (some ["cpu.so"]) none)]
      = Outcome.fatal Diagnostic.cannot_run_without_module :=
  modules_check_deps_declined_fatal declining_dir
    { gui_running := true, autoload_deps := false, use_modules := none,
      path_lib := "/usr/lib/hardinfo" } World.initial
    [record_of (plugin "mem.so" (some 5) (some ["cpu.so"]) none)] 3 rfl rfl rfl
    (by
      intro hc
      obtain ⟨m1, hm1, hname⟩ := hc (record_of (plugin "mem.so" (some 5) (some ["cpu.so"]) none))
        (by simp) ["cpu.so"] rfl "cpu.so" (by simp)
      rw [List.mem_singleton] at hm1
      subst hm1
      revert hname
      decide)
    (by decide)

end Hardinfo
